import Mathlib

/-!
Shallow embedding of the testsoftware_monitor pipeline.

The Python sources embedded here are:
* event_decoder.py   : PIN_EVENT_TYPES, decode_event_type_one_hot, encode_event_list
* pin_analyzer.py    : analyze_pin
* data_storage.py    : DeviceDataCollector (process_header, process_chunk,
                       _filter_weak_connections, _should_mask_connection,
                       _apply_phase_masking, is_complete) and the portion of
                       visualize_matrices that mutates collector state
* concurrent_monitor.py : the sentinel body substituted on CBOR decode failure
                       and the post-completion branch of packet_processor.

Modelling conventions:
* Python ints that travel in CBOR fields are Int; event bitmasks are Nat
  (the wire carries 32-bit unsigned masks).
* Python dicts keyed by ints/strings are association lists; dict assignment
  keeps the position of an existing key and appends a fresh one, which the
  helpers below reproduce.
* A dict key that is present with value None is an Option field holding none;
  a key that may be absent and is read with .get(k, default) is an Option
  field read with getD.
* A body that failed CBOR decoding is the map with the single string key
  "error": every integer-key lookup on it misses, which is exactly the
  all-none record called sentinel below.
* The two Nat fields filter_runs / phase_runs on the collector are pure
  instrumentation: they count the invocations of _filter_weak_connections and
  _apply_phase_masking and influence nothing else.  They exist so that the
  "masking runs exactly once" claims can be stated as counter equations.
-/

namespace TSMon

/-! ## Association-list helpers (Python dict behaviour) -/

/-- Lookup of the first binding of a key, like Python dict lookup on a dict
whose keys are unique. -/
def assocFind {α β : Type} [DecidableEq α] (k : α) : List (α × β) → Option β
  | [] => none
  | (k', v) :: rest => if k' = k then some v else assocFind k rest

/-- Python dict assignment: replace the value at an existing key in place,
append a fresh key at the end. -/
def assocSet {α β : Type} [DecidableEq α] (k : α) (v : β) : List (α × β) → List (α × β)
  | [] => [(k, v)]
  | (k', v') :: rest => if k' = k then (k, v) :: rest else (k', v') :: assocSet k v rest

/-- Python s.add(x) on a set stored at key k of a dict of sets, where the
collector only ever adds an element that is not yet present. -/
def assocAppend {α β : Type} [DecidableEq α] (k : α) (v : β) :
    List (α × List β) → List (α × List β)
  | [] => [(k, [v])]
  | (k', l) :: rest => if k' = k then (k', l ++ [v]) :: rest else (k', l) :: assocAppend k v rest

theorem assocFind_assocSet_self {α β : Type} [DecidableEq α] (k : α) (v : β)
    (l : List (α × β)) : assocFind k (assocSet k v l) = some v := by
  induction l with
  | nil => simp [assocSet, assocFind]
  | cons hd tl ih =>
    by_cases h : hd.1 = k <;> simp [assocSet, assocFind, h, ih]

theorem assocFind_assocSet_ne {α β : Type} [DecidableEq α] (k k' : α) (v : β)
    (l : List (α × β)) (h : k' ≠ k) :
    assocFind k' (assocSet k v l) = assocFind k' l := by
  have h' : ¬ k = k' := fun h3 => h h3.symm
  induction l with
  | nil => simp [assocSet, assocFind, h']
  | cons hd tl ih =>
    by_cases h2 : hd.1 = k
    · obtain ⟨a, b⟩ := hd
      simp only at h2
      subst h2
      simp [assocSet, assocFind, h']
    · by_cases h3 : hd.1 = k' <;> simp [assocSet, assocFind, h2, h3, h, ih]

theorem assocFind_assocAppend_self {α β : Type} [DecidableEq α] (k : α) (v : β)
    (l : List (α × List β)) :
    assocFind k (assocAppend k v l) = some (((assocFind k l).getD []) ++ [v]) := by
  induction l with
  | nil => simp [assocAppend, assocFind]
  | cons hd tl ih =>
    by_cases h : hd.1 = k <;> simp [assocAppend, assocFind, h, ih]

theorem assocFind_assocAppend_ne {α β : Type} [DecidableEq α] (k k' : α) (v : β)
    (l : List (α × List β)) (h : k' ≠ k) :
    assocFind k' (assocAppend k v l) = assocFind k' l := by
  have h' : ¬ k = k' := fun h3 => h h3.symm
  induction l with
  | nil => simp [assocAppend, assocFind, h']
  | cons hd tl ih =>
    by_cases h2 : hd.1 = k
    · obtain ⟨a, b⟩ := hd
      simp only at h2
      subst h2
      simp [assocAppend, assocFind, h']
    · by_cases h3 : hd.1 = k' <;> simp [assocAppend, assocFind, h2, h3, h, ih]

theorem mem_of_assocFind_eq_some {α β : Type} [DecidableEq α] {k : α} {v : β}
    {l : List (α × β)} (h : assocFind k l = some v) : (k, v) ∈ l := by
  induction l with
  | nil => simp [assocFind] at h
  | cons hd tl ih =>
    by_cases h2 : hd.1 = k
    · obtain ⟨a, b⟩ := hd
      simp only at h2
      subst h2
      simp [assocFind] at h
      subst h
      exact List.mem_cons_self _ _
    · simp [assocFind, h2] at h
      exact List.mem_cons_of_mem _ (ih h)

/-! ## event_decoder.py -/

/-- Fixed lookup table PIN_EVENT_TYPES from event_decoder.py. -/
def PIN_EVENT_TYPES : List (Nat × String) :=
  [(0, "PIN_INITIALLY_LOW"),
   (1, "PIN_INITIALLY_HIGH"),
   (2, "PIN_DISTURBED"),
   (3, "HANDSHAKE_OK_INITIATOR"),
   (4, "HANDSHAKE_OK_RESPONDER"),
   (5, "HANDSHAKE_FAILURE"),
   (6, "DATA_HANDSHAKE_OK"),
   (7, "DATA_HANDSHAKE_FAILURE"),
   (8, "PIN_IS_CONNECTED_WITH_INTERNAL_PIN"),
   (9, "PIN_IS_CONNECTED_WITH_EXTERNAL_PIN"),
   (10, "PIN_IS_NOT_LOW_WHEN_PULLED_DOWN"),
   (11, "PIN_IS_NOT_HIGH_WHEN_PULLED_UP"),
   (12, "PIN_IS_NOT_LOW_WHEN_DRIVEN_LOW"),
   (13, "PIN_IS_NOT_HIGH_WHEN_DRIVEN_HIGH"),
   (14, "UART_RX_IS_NOT_WORKING"),
   (15, "EXPECTS_TO_WORK_IN_ONE_DIRECTION")]

/-- Name produced for bit position n: the table entry, or the synthesized
placeholder PIN_EVENT_TYPES.get(n, f-string UNKNOWN_EVENT_n). -/
def eventName (n : Nat) : String :=
  (assocFind n PIN_EVENT_TYPES).getD ("UNKNOWN_EVENT_" ++ toString n)

/-- decode_event_type_one_hot from event_decoder.py: the loop
for bit_position in range(31): if event_bits and (1 shifted left) then append. -/
def decode_event_type_one_hot (event_bits : Nat) : List String :=
  (List.range 31).foldl
    (fun events bit_position =>
      if event_bits &&& (1 <<< bit_position) ≠ 0 then
        events ++ [eventName bit_position]
      else events)
    []

/-- Reverse map built by encode_event_list; the dict comprehension keeps the
last binding for a repeated value, hence the reversed lookup order. -/
def reverse_event_map : List (String × Nat) :=
  ((PIN_EVENT_TYPES.map (fun kv => (kv.2, kv.1))).reverse)

/-- encode_event_list from event_decoder.py. -/
def encode_event_list (events : List String) : Nat :=
  events.foldl
    (fun event_bits event =>
      match assocFind event reverse_event_map with
      | some bit_position => event_bits ||| (1 <<< bit_position)
      | none => event_bits)
    0

/-! ## pin_analyzer.py -/

/-- Value of one stage measurement: 1, 0 or the literal placeholder. -/
inductive MVal : Type
  | high
  | low
  | undef
deriving DecidableEq, Repr, Inhabited

/-- The 6-tuple (STEP_1_A, STEP_1_B, STEP_2_A, STEP_2_B, STEP_3_A, STEP_3_B). -/
abbrev MTuple := MVal × MVal × MVal × MVal × MVal × MVal

/-- Helper get_val of analyze_pin: HIGH present gives 1, LOW present gives 0,
neither gives the placeholder; membership is set membership on the events. -/
def get_val (stage : String) (ev : List String) : MVal :=
  if (stage ++ "_HIGH") ∈ ev then MVal.high
  else if (stage ++ "_LOW") ∈ ev then MVal.low
  else MVal.undef

/-- The patterns dict of analyze_pin, in its insertion order. -/
def strength_patterns : List (Int × MTuple) :=
  [(6,  (.high, .high, .high, .high, .high, .high)),
   (5,  (.high, .high, .high, .high, .undef, .high)),
   (4,  (.high, .high, .high, .high, .low, .high)),
   (3,  (.high, .high, .undef, .high, .low, .high)),
   (2,  (.high, .high, .low, .high, .low, .high)),
   (1,  (.undef, .high, .low, .high, .low, .high)),
   (0,  (.low, .high, .low, .high, .low, .high)),
   (-1, (.low, .undef, .low, .high, .low, .high)),
   (-2, (.low, .low, .low, .high, .low, .high)),
   (-3, (.low, .low, .undef, .high, .low, .high)),
   (-4, (.low, .low, .low, .low, .low, .high)),
   (-5, (.low, .low, .low, .low, .undef, .high)),
   (-6, (.low, .low, .low, .low, .low, .low))]

/-- The tuple built from the checks list of analyze_pin. -/
def actual_tuple (events : List String) : MTuple :=
  (get_val "STEP_1_A" events, get_val "STEP_1_B" events,
   get_val "STEP_2_A" events, get_val "STEP_2_B" events,
   get_val "STEP_3_A" events, get_val "STEP_3_B" events)

/-- analyze_pin from pin_analyzer.py: first pattern equal to the actual tuple
wins, no match returns None. -/
def analyze_pin (events : List String) : Option Int :=
  (strength_patterns.find? (fun sp => decide (sp.2 = actual_tuple events))).map Prod.fst

/-! ## data_storage.py : data model -/

/-- One stored connection dict.  process_chunk stores the three wire keys
(the connection-type key with default 0); the two mask flags are absent until
the masking passes write them, hence Option Bool. -/
structure Conn : Type where
  other_pin : Option Int
  parameter : Option Int
  conn_type : Int
  masked : Option Bool
  phase_masked : Option Bool
deriving DecidableEq, Repr, Inhabited

/-- One stored pin dict of device.pins. -/
structure Pin : Type where
  pin : Option Int
  events : List String
  events_mask : Nat
  strength : Option Int
  connections : List Conn
deriving DecidableEq, Repr, Inhabited

/-- One device dict of collector.devices.  uuid and git_commit are opaque
CBOR scalars the collector only stores and prints; they are modelled as
Option Int. -/
structure Device : Type where
  total_chunks : Int
  expected_sessions : Int
  pins : List Pin
  received_sessions : List (Int × List Int)
  raw_header : List Nat
  raw_session_chunks : List (Int × List (Int × List Nat))
  complete : Bool
  saved : Bool
  uuid : Option Int
  git_commit : Option Int
deriving DecidableEq, Repr, Inhabited

/-- The DeviceDataCollector state that the protocol logic touches.
filter_runs / phase_runs are instrumentation counters (see file header). -/
structure Collector : Type where
  devices : List (String × Device)
  current_device_family : Option String
  filter_runs : Nat
  phase_runs : Nat
deriving DecidableEq, Repr, Inhabited

/-- A fresh collector (DeviceDataCollector.__init__). -/
def Collector.init : Collector :=
  { devices := [], current_device_family := none, filter_runs := 0, phase_runs := 0 }

/-- Integer-keyed header body fields read by process_header.  An absent key is
none. -/
structure HeaderData : Type where
  uuid : Option Int
  family : Option String
  total_chunks : Option Int
  expected_sessions : Option Int
  version : Option Int
deriving DecidableEq, Repr, Inhabited

/-- The body substituted by the codec when CBOR decoding of a header fails:
a map with only the string key "error", so every integer-key lookup misses. -/
def HeaderData.sentinel : HeaderData :=
  { uuid := none, family := none, total_chunks := none,
    expected_sessions := none, version := none }

/-- The header_result dict handed to process_header by parse_header_packet. -/
structure HeaderResult : Type where
  hash_valid : Bool
  data : HeaderData
  raw_bytes : List Nat
deriving DecidableEq, Repr, Inhabited

/-- One connection entry inside a chunk body pin entry. -/
structure ConnEntry : Type where
  other_pin : Option Int
  parameter : Option Int
  conn_type : Option Int
deriving DecidableEq, Repr, Inhabited

/-- One pin entry of the chunk body pin list. -/
structure PinEntry : Type where
  pin : Option Int
  events : Option Nat
  connections : List ConnEntry
deriving DecidableEq, Repr, Inhabited

/-- Integer-keyed chunk body fields read by process_chunk. -/
structure ChunkData : Type where
  chunk_id : Option Int
  stream_number : Option Int
  pins : Option (List PinEntry)
deriving DecidableEq, Repr, Inhabited

/-- The body substituted by the codec when CBOR decoding of a chunk fails:
a map with only the string key "error", so every integer-key lookup misses. -/
def ChunkData.sentinel : ChunkData :=
  { chunk_id := none, stream_number := none, pins := none }

/-- The chunk_result dict handed to process_chunk by parse_chunk_packet. -/
structure ChunkResult : Type where
  hash_valid : Bool
  packet_id : Option Int
  data : ChunkData
  raw_bytes : List Nat
deriving DecidableEq, Repr, Inhabited

/-! ## data_storage.py : operations -/

/-- Python range over a possibly negative int bound. -/
def intRange (n : Int) : List Int :=
  (List.range n.toNat).map Int.ofNat

/-- Truthiness of self.current_device_family in process_chunk: None and the
empty string both fail the check. -/
def currentFamily (c : Collector) : Option String :=
  match c.current_device_family with
  | none => none
  | some f => if f = "" then none else some f

/-- process_header from data_storage.py. -/
def process_header (c : Collector) (header_result : HeaderResult) : Bool × Collector :=
  if header_result.hash_valid = false then (false, c)
  else
    match header_result.data.family with
    | none => (false, c)
    | some device_family =>
      (true,
       { c with
         current_device_family := some device_family,
         devices := assocSet device_family
           { total_chunks := (header_result.data.total_chunks).getD 0,
             expected_sessions := (header_result.data.expected_sessions).getD 1,
             pins := [],
             received_sessions := [],
             raw_header := header_result.raw_bytes,
             raw_session_chunks := [],
             complete := false,
             saved := false,
             uuid := header_result.data.uuid,
             git_commit := header_result.data.version } c.devices })

/-- Connection dict built for each wire connection entry by process_chunk:
the three keys are stored, conn_type defaulted to 0, no mask flags yet. -/
def connFromEntry (ce : ConnEntry) : Conn :=
  { other_pin := ce.other_pin, parameter := ce.parameter,
    conn_type := (ce.conn_type).getD 0, masked := none, phase_masked := none }

/-- In-place update of the first pin with the given number: overwrite events,
mask and strength, append the new connections. -/
def updateExistingPin (pin_num : Option Int) (events : List String) (mask : Nat)
    (strength : Option Int) (conns : List Conn) : List Pin → List Pin
  | [] => []
  | p :: rest =>
    if p.pin = pin_num then
      { p with events := events, events_mask := mask, strength := strength,
               connections := p.connections ++ conns } :: rest
    else p :: updateExistingPin pin_num events mask strength conns rest

/-- Body of the pin loop of process_chunk for a single pin entry. -/
def process_pin_entry (pins : List Pin) (pin_entry : PinEntry) : List Pin :=
  let events_raw := (pin_entry.events).getD 0
  let events := if events_raw ≠ 0 then decode_event_type_one_hot events_raw else []
  let new_connections := pin_entry.connections.map connFromEntry
  let strength := analyze_pin events
  if pins.any (fun p => decide (p.pin = pin_entry.pin)) then
    updateExistingPin pin_entry.pin events events_raw strength new_connections pins
  else
    pins ++ [{ pin := pin_entry.pin, events := events, events_mask := events_raw,
               strength := strength, connections := new_connections }]

/-- Session completeness test of the completion loop of process_chunk:
s_id in received_sessions and len(received_sessions[s_id]) == total_chunks. -/
def session_done (d : Device) (s_id : Int) : Bool :=
  match assocFind s_id d.received_sessions with
  | some chunk_set => decide ((chunk_set.length : Int) = d.total_chunks)
  | none => false

/-- Completion predicate as the code computes it: every session index of
range(expected_sessions) is present with exactly total_chunks recorded ids. -/
def code_complete_pred (d : Device) : Bool :=
  (intRange d.expected_sessions).all (session_done d)

/-- The pin-number-to-events dict built by _filter_weak_connections; the
comprehension keeps the last binding of a repeated pin number. -/
def pin_events_map (pins : List Pin) : List (Option Int × List String) :=
  (pins.map (fun p => (p.pin, p.events))).reverse

/-- The _should_mask_connection method.  It scans the pins of
self.devices at self.current_device_family; every caller guarantees the
current family is set and present, an absent family is modelled as an empty
pin list (where CPython would raise KeyError). -/
def should_mask_connection (c : Collector) (events : List String)
    (phase : Option Int) : Bool :=
  let pins :=
    match c.current_device_family with
    | some f => ((assocFind f c.devices).map Device.pins).getD []
    | none => []
  let stored :=
    match pins.find? (fun p => decide (p.events = events)) with
    | some p => p.strength
    | none => none
  let strength :=
    match stored with
    | some s => some s
    | none => analyze_pin events
  match strength with
  | none => false
  | some s =>
    if s = 0 then false
    else if 1 ≤ s ∧ (phase = some 1 ∨ phase = some 3) then true
    else if s ≤ -1 ∧ (phase = some 0 ∨ phase = some 2) then true
    else false

/-- Connection-masking step of _filter_weak_connections for one connection:
internal connections get the strength-mask verdict of either endpoint,
external connections get False. -/
def maskConn (c : Collector) (pin_events : List (Option Int × List String))
    (events : List String) (conn : Conn) : Conn :=
  if conn.conn_type = 0 then
    let phase := conn.parameter
    let source_masked := should_mask_connection c events phase
    let target_events := (assocFind conn.other_pin pin_events).getD []
    let target_masked := should_mask_connection c target_events phase
    { conn with masked := some (source_masked || target_masked) }
  else
    { conn with masked := some false }

/-- Pin loop of _filter_weak_connections. -/
def maskPins (c : Collector) (device : Device) : List Pin :=
  let pin_events := pin_events_map device.pins
  device.pins.map (fun pin =>
    { pin with connections := pin.connections.map (maskConn c pin_events pin.events) })

/-- The _filter_weak_connections method: writes the masked flag of every
connection of the named device.  The instrumentation counter filter_runs is
incremented once per run on a present device. -/
def filter_weak_connections (c : Collector) (device_family : String) : Collector :=
  match assocFind device_family c.devices with
  | none => c
  | some device =>
    { c with
      devices := assocSet device_family { device with pins := maskPins c device } c.devices,
      filter_runs := c.filter_runs + 1 }

/-- Session id read by process_chunk: chunk_data.get(KEY_STREAM_NUMBER, 0). -/
def chunkSessionId (ch : ChunkResult) : Int :=
  (ch.data.stream_number).getD 0

/-- Chunk id read by process_chunk:
chunk_data.get(KEY_CHUNK_ID, chunk_result.get(packet_id, -1)). -/
def chunkChunkId (ch : ChunkResult) : Int :=
  (ch.data.chunk_id).getD ((ch.packet_id).getD (-1))

/-- Creation of the empty session entries when a session id is first seen
(lines 260-262 of data_storage.py). -/
def ensureSession (device : Device) (session_id : Int) : Device :=
  if (assocFind session_id device.received_sessions).isSome then device
  else
    { device with
      received_sessions := device.received_sessions ++ [(session_id, [])],
      raw_session_chunks := device.raw_session_chunks ++ [(session_id, [])] }

/-- The mutation block of process_chunk after the duplicate check: store the
raw bytes, fold the pin entries, record the chunk id, recompute complete. -/
def storeChunk (device1 : Device) (ch : ChunkResult)
    (session_id chunk_id : Int) : Device :=
  let device2 :=
    { device1 with
      raw_session_chunks :=
        (device1.raw_session_chunks.map
          (fun (sm : Int × List (Int × List Nat)) =>
            if sm.1 = session_id then
              (sm.1, assocSet chunk_id ch.raw_bytes sm.2)
            else sm)) }
  let device3 :=
    { device2 with
      pins := ((ch.data.pins).getD []).foldl process_pin_entry device2.pins }
  let device4 :=
    { device3 with
      received_sessions := assocAppend session_id chunk_id device3.received_sessions }
  let sessions_done := (intRange device4.expected_sessions).countP (session_done device4)
  { device4 with
    complete := decide ((sessions_done : Int) = device4.expected_sessions) }

/-- Device value produced by a successfully recorded chunk. -/
def chunkStoredDevice (device : Device) (ch : ChunkResult) : Device :=
  storeChunk (ensureSession device (chunkSessionId ch)) ch (chunkSessionId ch) (chunkChunkId ch)

/-- Collector state after a successfully recorded chunk: store the device,
then run the strength-masking filter iff the device is now complete. -/
def chunkSuccState (c : Collector) (fam : String) (device : Device)
    (ch : ChunkResult) : Collector :=
  let device5 := chunkStoredDevice device ch
  let c1 := { c with devices := assocSet fam device5 c.devices }
  if device5.complete then filter_weak_connections c1 fam else c1

/-- process_chunk from data_storage.py. -/
def process_chunk (c : Collector) (chunk_result : ChunkResult) : Bool × Collector :=
  if chunk_result.hash_valid = false then (false, c)
  else
    match currentFamily c with
    | none => (false, c)
    | some fam =>
      match assocFind fam c.devices with
      | none => (false, c)
      | some device =>
        let device1 := ensureSession device (chunkSessionId chunk_result)
        if chunkChunkId chunk_result ∈
            (assocFind (chunkSessionId chunk_result) device1.received_sessions).getD [] then
          (false, c)
        else (true, chunkSuccState c fam device chunk_result)

/-- The is_complete method: saves the report of every complete unsaved device
(the emitted family list models the save_device_report side effect), marks it
saved, and always returns False. -/
def is_complete_call (c : Collector) : Bool × Collector × List String :=
  let step := c.devices.foldl
    (fun (acc : List (String × Device) × List String) fd =>
      if fd.2.complete && !fd.2.saved then
        (acc.1 ++ [(fd.1, { fd.2 with saved := true })], acc.2 ++ [fd.1])
      else (acc.1 ++ [fd], acc.2))
    ([], [])
  (false, { c with devices := step.1 }, step.2)

/-- The guard if collector.is_complete(): of packet_processor in
concurrent_monitor.py; the guarded branch runs iff this is true. -/
def monitor_completion_branch (c : Collector) : Bool :=
  (is_complete_call c).1

/-- Modelled from the spec: PhaseMasking.should_keep_phase of phase_masking.py
is imported by data_storage.py but the file is not part of src/.  Spec 4.6:
a weaker-evidence phase is discounted unless its stronger corroborating phase
was also observed for that exact pair, even-indexed phases corroborate each
other in a chain and odd-indexed phases in a parallel chain, and only the
best-evidenced phase per direction is trusted.  We model this as: a phase is
kept iff no strictly stronger (larger) phase of the same parity was observed
for the pair.  No claim below depends on the value of this function. -/
def should_keep_phase (phase : Int) (phases : List Int) : Bool :=
  phases.all (fun q => decide (q % 2 ≠ phase % 2) || decide (q ≤ phase))

/-- Phases recorded for one directional pin pair by the grouping pass of
_apply_phase_masking (internal connections with phase between 0 and 5). -/
def pair_phases (device : Device) (pin_num other : Option Int) : List Int :=
  device.pins.foldl
    (fun acc p =>
      if p.pin = pin_num then
        acc ++ p.connections.filterMap (fun c2 =>
          if c2.conn_type = 0 ∧ c2.other_pin = other then
            match c2.parameter with
            | some ph => if 0 ≤ ph ∧ ph ≤ 5 then some ph else none
            | none => none
          else none)
      else acc)
    []

/-- The _apply_phase_masking method: writes the phase_masked flag of every
internal connection with phase 0..5, using the phases observed for the same
directional pin pair.  A connection whose stored phase value is None is left
untouched here (CPython would raise TypeError on its comparison; the claims
below never evaluate such a state).  The instrumentation counter phase_runs
is incremented once per run on a present device. -/
def apply_phase_masking (c : Collector) (device_family : String) : Collector :=
  match assocFind device_family c.devices with
  | none => c
  | some device =>
    let new_pins := device.pins.map (fun pin =>
      { pin with connections := pin.connections.map (fun conn =>
          if conn.conn_type = 0 then
            match conn.parameter with
            | some phase =>
              if 0 ≤ phase ∧ phase ≤ 5 then
                let keep := should_keep_phase phase (pair_phases device pin.pin conn.other_pin)
                { conn with phase_masked := some (Bool.not keep) }
              else conn
            | none => conn
          else conn) })
    { c with
      devices := assocSet device_family { device with pins := new_pins } c.devices,
      phase_runs := c.phase_runs + 1 }

/-- Insertion into a sorted string list, for sorted(devices.keys()). -/
def insertSorted (s : String) : List String → List String
  | [] => [s]
  | x :: xs => if s ≤ x then s :: x :: xs else x :: insertSorted s xs

/-- Python sorted on a list of strings (insertion sort). -/
def sortStrings (l : List String) : List String :=
  l.foldr insertSorted []

/-- The collector-state effect of visualize_matrices: it applies phase
masking to every device family (in sorted order) before producing plots; the
plotting itself reads but never writes collector state. -/
def visualize_matrices_masking (c : Collector) : Collector :=
  (sortStrings (c.devices.map Prod.fst)).foldl apply_phase_masking c

/-! ## Packet sequences -/

/-- One packet handed to the collector by the packet processor. -/
inductive PacketOp : Type
  | header (h : HeaderResult)
  | chunk (ch : ChunkResult)
deriving DecidableEq, Repr, Inhabited

/-- Effect of one packet on the collector. -/
def applyOp (c : Collector) : PacketOp → Collector
  | PacketOp.header h => (process_header c h).2
  | PacketOp.chunk ch => (process_chunk c ch).2

/-- Collector state after a sequence of packets starting from a fresh
collector. -/
def applyOps (ops : List PacketOp) : Collector :=
  ops.foldl applyOp Collector.init

/-- Non-degenerate packet: a header announcing at least one chunk and at
least one session (the values process_header would store).  Chunks are
unrestricted. -/
def goodOp : PacketOp → Bool
  | PacketOp.header h =>
    decide (1 ≤ (h.data.total_chunks).getD 0) &&
    decide (1 ≤ (h.data.expected_sessions).getD 1)
  | PacketOp.chunk _ => true

end TSMon

namespace TSMon

/-! ## Concrete packets used by the witnesses and counterexamples -/

/-- A valid header for family NRF with total_chunks 2 and expected_sessions 1
(the end-to-end scenario of the spec). -/
def hdrNRF : HeaderResult :=
  { hash_valid := true,
    data := { uuid := none, family := some "NRF", total_chunks := some 2,
              expected_sessions := some 1, version := none },
    raw_bytes := [] }

/-- A valid header for family NRF with total_chunks 1 and expected_sessions 1. -/
def hdrNRF1 : HeaderResult :=
  { hash_valid := true,
    data := { uuid := none, family := some "NRF", total_chunks := some 1,
              expected_sessions := some 1, version := none },
    raw_bytes := [] }

/-- A valid header for family NRF whose body carries neither total_chunks nor
expected_sessions, so process_header stores the defaults 0 and 1. -/
def hdrNRF0 : HeaderResult :=
  { hash_valid := true,
    data := { uuid := none, family := some "NRF", total_chunks := none,
              expected_sessions := none, version := none },
    raw_bytes := [] }

/-- A checksum-valid chunk with the given session and chunk id and no pins. -/
def chk (sid cid : Int) : ChunkResult :=
  { hash_valid := true, packet_id := some cid,
    data := { chunk_id := some cid, stream_number := some sid, pins := some [] },
    raw_bytes := [] }

/-- A checksum-valid chunk whose body failed CBOR decoding (sentinel error
map), carrying wire packet id 0. -/
def sentinelChk : ChunkResult :=
  { hash_valid := true, packet_id := some 0, data := ChunkData.sentinel, raw_bytes := [] }

/-! ## Event decoding lemmas -/

/-- The append-accumulating loop of the decoder is a filter-then-map. -/
theorem foldl_append_filter_map {alpha beta : Type} (p : alpha → Prop) [DecidablePred p]
    (f : alpha → beta) :
    ∀ (r : List alpha) (acc : List beta),
      r.foldl (fun es b => if p b then es ++ [f b] else es) acc
        = acc ++ (r.filter (fun b => decide (p b))).map f := by
  intro r
  induction r with
  | nil => intro acc; simp
  | cons hd tl ih =>
    intro acc
    by_cases h : p hd <;> simp [List.foldl_cons, h, ih]

/-- The bit test of the decoder loop agrees with Nat.testBit. -/
theorem and_shift_eq_testBit (m b : Nat) :
    (decide (m &&& (1 <<< b) ≠ 0)) = m.testBit b := by
  have h1 : (1 : Nat) <<< b = 2 ^ b := by
    rw [Nat.shiftLeft_eq, one_mul]
  rw [h1, Nat.and_two_pow]
  have h2 : (2 : Nat) ^ b ≠ 0 := Nat.pos_iff_ne_zero.mp (Nat.two_pow_pos b)
  cases h : m.testBit b <;> simp [h, h2]

/-- Closed form of decode_event_type_one_hot. -/
theorem decode_eq_filter_map (m : Nat) :
    decode_event_type_one_hot m
      = ((List.range 31).filter (fun b => m.testBit b)).map eventName := by
  unfold decode_event_type_one_hot
  rw [foldl_append_filter_map (fun b => m &&& (1 <<< b) ≠ 0) eventName (List.range 31) []]
  rw [show (fun b => decide (m &&& (1 <<< b) ≠ 0)) = (fun b => m.testBit b) from
    funext (fun b => and_shift_eq_testBit m b)]
  simp

/-- Membership in the decoder output. -/
theorem mem_decode_iff (m : Nat) (x : String) :
    x ∈ decode_event_type_one_hot m
      ↔ ∃ b, b < 31 ∧ m.testBit b = true ∧ x = eventName b := by
  rw [decode_eq_filter_map]
  simp only [List.mem_map, List.mem_filter, List.mem_range]
  constructor
  · rintro ⟨b, ⟨hb, ht⟩, he⟩
    exact ⟨b, hb, ht, he.symm⟩
  · rintro ⟨b, hb, ht, he⟩
    exact ⟨b, ⟨hb, ht⟩, he.symm⟩

/-- Spec-side description of the decoder (written from the words of the spec
and of claim C6): one event name per set bit among the first bit_count bit
positions, in ascending bit position, each mapped through the fixed table
with the UNKNOWN_EVENT placeholder as fallback. -/
def decode_spec (bit_count : Nat) (mask : Nat) : List String :=
  ((List.range bit_count).filter (fun n => mask.testBit n)).map eventName

/-- C6 (amended from 32 to 31 bit positions): for every bitmask the decoder
returns exactly one event name per set bit among the bit positions 0..30, in
ascending bit-position order, mapping each set position through the fixed
lookup table and synthesizing UNKNOWN_EVENT placeholders; bit 31 is ignored
(the loop of decode_event_type_one_hot is range(31)). -/
theorem spec2proof_c6 (mask : Nat) :
    decode_event_type_one_hot mask = decode_spec 31 mask :=
  decode_eq_filter_map mask

/-- C6 counterexample: on the mask with only bit 31 set the decoder returns
no event at all, while the claimed 32-bit-position reading would return
UNKNOWN_EVENT_31; the decoder scans only 31 bit positions. -/
theorem spec2proof_c6_counterexample :
    decode_event_type_one_hot (2 ^ 31) = []
    ∧ decode_spec 32 (2 ^ 31) = ["UNKNOWN_EVENT_31"]
    ∧ decode_event_type_one_hot (2 ^ 31) ≠ decode_spec 32 (2 ^ 31) :=
  ⟨by decide, by decide, by decide⟩

/-! ## Strength classifier lemmas (C4) -/

/-- First-match lookup in an association list whose keys and values are both
duplicate-free is membership. -/
theorem find_pattern_iff {l : List (Int × MTuple)}
    (hs : (l.map Prod.fst).Nodup) (ht : (l.map Prod.snd).Nodup)
    (s : Int) (t : MTuple) :
    ((l.find? (fun sp => decide (sp.2 = t))).map Prod.fst = some s) ↔ (s, t) ∈ l := by
  induction l with
  | nil => simp
  | cons hd tl ih =>
    obtain ⟨a, b⟩ := hd
    simp only [List.map_cons, List.nodup_cons] at hs ht
    by_cases hb : b = t
    · subst hb
      rw [List.find?_cons_of_pos _ (by simp)]
      simp only [Option.map_some', Option.some.injEq, List.mem_cons, Prod.mk.injEq]
      constructor
      · intro h
        exact Or.inl ⟨h.symm, trivial⟩
      · rintro (⟨h1, h2⟩ | h2)
        · exact h1.symm
        · exact absurd (List.mem_map_of_mem Prod.snd h2) ht.1
    · rw [List.find?_cons_of_neg _ (by simp [hb])]
      rw [ih hs.2 ht.2]
      simp only [List.mem_cons, Prod.mk.injEq]
      constructor
      · exact Or.inr
      · rintro (⟨h1, h2⟩ | h2)
        · exact absurd h2.symm hb
        · exact h2

/-- Events list for which every stage measured high. -/
def all_high_events : List String :=
  ["STEP_1_A_HIGH", "STEP_1_B_HIGH", "STEP_2_A_HIGH",
   "STEP_2_B_HIGH", "STEP_3_A_HIGH", "STEP_3_B_HIGH"]

/-- Claim C4 (confirmed): the classifier builds the 6-tuple of stage/sub
measurements and compares it by exact equality against the fixed table of 13
canonical tuples (placeholders match only placeholders); the result is some s
exactly when (s, tuple) is a table row, undefined exactly when the tuple is
absent from the table; the all-high tuple gives 6, the all-low tuple gives
-6, and every defined result lies in -6..6. -/
theorem spec2proof_c4 (events : List String) :
    (∀ s : Int, analyze_pin events = some s ↔ (s, actual_tuple events) ∈ strength_patterns)
    ∧ (analyze_pin events = none ↔ actual_tuple events ∉ strength_patterns.map Prod.snd)
    ∧ (actual_tuple events = (MVal.high, MVal.high, MVal.high, MVal.high, MVal.high, MVal.high)
        → analyze_pin events = some 6)
    ∧ (actual_tuple events = (MVal.low, MVal.low, MVal.low, MVal.low, MVal.low, MVal.low)
        → analyze_pin events = some (-6))
    ∧ (∀ s : Int, analyze_pin events = some s → -6 ≤ s ∧ s ≤ 6)
    ∧ strength_patterns.length = 13 := by
  have hs : (strength_patterns.map Prod.fst).Nodup := by decide
  have ht : (strength_patterns.map Prod.snd).Nodup := by decide
  have h1 : ∀ s : Int, analyze_pin events = some s
      ↔ (s, actual_tuple events) ∈ strength_patterns :=
    fun s => find_pattern_iff hs ht s (actual_tuple events)
  refine ⟨h1, ?_, ?_, ?_, ?_, by decide⟩
  · unfold analyze_pin
    rw [Option.map_eq_none', List.find?_eq_none]
    constructor
    · intro h hmem
      obtain ⟨⟨a, b⟩, hab, hb⟩ := List.mem_map.mp hmem
      exact h _ hab (by simp only [decide_eq_true_eq]; exact hb)
    · intro h sp hsp
      simp only [decide_eq_true_eq]
      intro he
      exact h (he ▸ List.mem_map_of_mem Prod.snd hsp)
  · intro h
    exact (h1 6).mpr (by rw [h]; decide)
  · intro h
    exact (h1 (-6)).mpr (by rw [h]; decide)
  · intro s hsome
    have hmem := (h1 s).mp hsome
    have : s ∈ strength_patterns.map Prod.fst := List.mem_map_of_mem Prod.fst hmem
    simp only [strength_patterns, List.map_cons, List.map_nil, List.mem_cons,
      List.not_mem_nil, or_false] at this
    rcases this with h | h | h | h | h | h | h | h | h | h | h | h | h <;> subst h <;> omega

/-- Witness for C4: the all-high events list matches the all-high table row
and classifies as 6. -/
theorem spec2proof_c4_witness :
    actual_tuple all_high_events
        = (MVal.high, MVal.high, MVal.high, MVal.high, MVal.high, MVal.high)
    ∧ analyze_pin all_high_events = some 6
    ∧ ((6 : Int), actual_tuple all_high_events) ∈ strength_patterns :=
  ⟨by decide, (spec2proof_c4 all_high_events).2.2.1 (by decide), by decide⟩

/-! ## The classifier never fires on decoder output (C9 machinery) -/

/-- The twelve stage/sub event names the classifier looks for. -/
def step_names : List String :=
  ["STEP_1_A_HIGH", "STEP_1_A_LOW", "STEP_1_B_HIGH", "STEP_1_B_LOW",
   "STEP_2_A_HIGH", "STEP_2_A_LOW", "STEP_2_B_HIGH", "STEP_2_B_LOW",
   "STEP_3_A_HIGH", "STEP_3_A_LOW", "STEP_3_B_HIGH", "STEP_3_B_LOW"]

/-- No name the decoder can emit is a stage/sub name: the table names and the
UNKNOWN_EVENT placeholders of positions 0..30 avoid all twelve. -/
theorem eventName_not_step : ∀ b < 31, eventName b ∉ step_names := by decide

/-- Nothing in any decoder output is a stage/sub name. -/
theorem decode_no_step (m : Nat) {x : String} (hx : x ∈ decode_event_type_one_hot m) :
    x ∉ step_names := by
  obtain ⟨b, hb, _, he⟩ := (mem_decode_iff m x).mp hx
  exact he ▸ eventName_not_step b hb

/-- get_val is the placeholder when neither stage name occurs. -/
theorem get_val_eq_undef {stage : String} {ev : List String}
    (h1 : (stage ++ "_HIGH") ∉ ev) (h2 : (stage ++ "_LOW") ∉ ev) :
    get_val stage ev = MVal.undef := by
  unfold get_val
  rw [if_neg h1, if_neg h2]

/-- On decoder output every stage measurement is the placeholder. -/
theorem actual_tuple_decode (m : Nat) :
    actual_tuple (decode_event_type_one_hot m)
      = (MVal.undef, MVal.undef, MVal.undef, MVal.undef, MVal.undef, MVal.undef) := by
  have hn : ∀ x ∈ step_names, x ∉ decode_event_type_one_hot m :=
    fun x hx hmem => decode_no_step m hmem hx
  unfold actual_tuple
  rw [get_val_eq_undef (hn _ (by decide)) (hn _ (by decide)),
      get_val_eq_undef (hn _ (by decide)) (hn _ (by decide)),
      get_val_eq_undef (hn _ (by decide)) (hn _ (by decide)),
      get_val_eq_undef (hn _ (by decide)) (hn _ (by decide)),
      get_val_eq_undef (hn _ (by decide)) (hn _ (by decide)),
      get_val_eq_undef (hn _ (by decide)) (hn _ (by decide))]

/-- The classifier is undefined on every decoder output. -/
theorem analyze_decode_none (m : Nat) :
    analyze_pin (decode_event_type_one_hot m) = none := by
  unfold analyze_pin
  simp only [actual_tuple_decode]
  decide

/-- The classifier is undefined on the empty events list. -/
theorem analyze_pin_nil : analyze_pin ([] : List String) = none := by decide

/-! ## Pin list update lemmas -/

/-- Events list computed by the pin loop for a pin entry. -/
def entryEvents (pe : PinEntry) : List String :=
  if (pe.events).getD 0 ≠ 0 then decode_event_type_one_hot ((pe.events).getD 0) else []

theorem mem_updateExistingPin {p : Pin} {pin_num : Option Int} {ev : List String}
    {mask : Nat} {s : Option Int} {conns : List Conn} {pins : List Pin}
    (h : p ∈ updateExistingPin pin_num ev mask s conns pins) :
    (p.events = ev ∧ p.strength = s) ∨ p ∈ pins := by
  induction pins with
  | nil => simp [updateExistingPin] at h
  | cons hd tl ih =>
    unfold updateExistingPin at h
    by_cases hc : hd.pin = pin_num
    · rw [if_pos hc] at h
      rcases List.mem_cons.mp h with h | h
      · subst h; exact Or.inl ⟨rfl, rfl⟩
      · exact Or.inr (List.mem_cons_of_mem _ h)
    · rw [if_neg hc] at h
      rcases List.mem_cons.mp h with h | h
      · subst h; exact Or.inr (List.mem_cons_self _ _)
      · rcases ih h with h | h
        · exact Or.inl h
        · exact Or.inr (List.mem_cons_of_mem _ h)

theorem mem_process_pin_entry {p : Pin} {pins : List Pin} {pe : PinEntry}
    (h : p ∈ process_pin_entry pins pe) :
    (p.events = entryEvents pe ∧ p.strength = analyze_pin (entryEvents pe)) ∨ p ∈ pins := by
  unfold process_pin_entry at h
  by_cases hc : pins.any (fun q => decide (q.pin = pe.pin))
  · rw [if_pos hc] at h
    exact mem_updateExistingPin h
  · rw [if_neg hc] at h
    rcases List.mem_append.mp h with h | h
    · exact Or.inr h
    · rcases List.mem_singleton.mp h with h
      subst h
      exact Or.inl ⟨rfl, rfl⟩

/-- Every pin of the folded pin list has a consistent stored strength,
provided the initial pins do. -/
theorem strength_consistent_foldl (entries : List PinEntry) :
    ∀ (pins : List Pin), (∀ p ∈ pins, p.strength = analyze_pin p.events) →
      ∀ p ∈ entries.foldl process_pin_entry pins, p.strength = analyze_pin p.events := by
  induction entries with
  | nil => intro pins h; simpa using h
  | cons hd tl ih =>
    intro pins h
    rw [List.foldl_cons]
    apply ih
    intro p hp
    rcases mem_process_pin_entry hp with ⟨he, hs⟩ | hp2
    · rw [hs, he]
    · exact h p hp2

/-- Every pin of the folded pin list has strength None, provided the initial
pins do: the computed events are a decoder output or empty, and the
classifier is undefined on both. -/
theorem strength_none_foldl (entries : List PinEntry) :
    ∀ (pins : List Pin), (∀ p ∈ pins, p.strength = none) →
      ∀ p ∈ entries.foldl process_pin_entry pins, p.strength = none := by
  induction entries with
  | nil => intro pins h; simpa using h
  | cons hd tl ih =>
    intro pins h
    rw [List.foldl_cons]
    apply ih
    intro p hp
    rcases mem_process_pin_entry hp with ⟨he, hs⟩ | hp2
    · rw [hs]
      unfold entryEvents
      by_cases hm : (hd.events).getD 0 ≠ 0
      · rw [if_pos hm]; exact analyze_decode_none _
      · rw [if_neg hm]; exact analyze_pin_nil
    · exact h p hp2

/-! ## process_chunk case analysis -/

/-- Every call of process_chunk either fails leaving the collector unchanged,
or succeeds on the current device with a fresh (session, chunk) pair and
produces chunkSuccState. -/
theorem process_chunk_result (c : Collector) (ch : ChunkResult) :
    ((process_chunk c ch).1 = false ∧ (process_chunk c ch).2 = c)
    ∨ (∃ fam device,
        ch.hash_valid = true
        ∧ currentFamily c = some fam
        ∧ assocFind fam c.devices = some device
        ∧ chunkChunkId ch ∉
            (assocFind (chunkSessionId ch)
              (ensureSession device (chunkSessionId ch)).received_sessions).getD []
        ∧ process_chunk c ch = (true, chunkSuccState c fam device ch)) := by
  unfold process_chunk
  by_cases hv : ch.hash_valid = false
  · rw [if_pos hv]; exact Or.inl ⟨rfl, rfl⟩
  · rw [if_neg hv]
    simp only [Bool.not_eq_false] at hv
    split
    · exact Or.inl ⟨rfl, rfl⟩
    · rename_i fam hcf
      split
      · exact Or.inl ⟨rfl, rfl⟩
      · rename_i device hdev
        dsimp only
        split
        · exact Or.inl ⟨rfl, rfl⟩
        · rename_i hdup
          exact Or.inr ⟨fam, device, hv, hcf, hdev, hdup, rfl⟩

/-- A failed process_chunk changes nothing. -/
theorem process_chunk_false (c : Collector) (ch : ChunkResult)
    (h : (process_chunk c ch).1 = false) : (process_chunk c ch).2 = c := by
  rcases process_chunk_result c ch with ⟨_, h2⟩ | ⟨fam, device, _, _, _, _, h2⟩
  · exact h2
  · rw [h2] at h; simp at h

theorem filter_weak_current (c : Collector) (fam : String) :
    (filter_weak_connections c fam).current_device_family = c.current_device_family := by
  unfold filter_weak_connections
  cases assocFind fam c.devices <;> rfl

theorem chunkSuccState_current (c : Collector) (fam : String) (device : Device)
    (ch : ChunkResult) :
    (chunkSuccState c fam device ch).current_device_family = c.current_device_family := by
  unfold chunkSuccState
  by_cases h : (chunkStoredDevice device ch).complete <;>
    simp only [h, if_true, if_false, filter_weak_current, Bool.false_eq_true]

theorem process_chunk_current (c : Collector) (ch : ChunkResult) :
    (process_chunk c ch).2.current_device_family = c.current_device_family := by
  rcases process_chunk_result c ch with ⟨_, h2⟩ | ⟨fam, device, _, _, _, _, h2⟩
  · rw [h2]
  · rw [h2]; exact chunkSuccState_current c fam device ch

/-! ## Duplicate chunks (C2 machinery) -/

/-- The (session id, chunk id) pair of the packet is already recorded for the
active device. -/
def isDuplicateChunk (c : Collector) (ch : ChunkResult) : Bool :=
  match currentFamily c with
  | none => false
  | some fam =>
    match assocFind fam c.devices with
    | none => false
    | some device =>
      decide (chunkChunkId ch ∈
        (assocFind (chunkSessionId ch) device.received_sessions).getD [])

theorem currentFamily_eq_of {c c' : Collector}
    (h : c'.current_device_family = c.current_device_family) :
    currentFamily c' = currentFamily c := by
  unfold currentFamily
  rw [h]

/-- A chunk whose (session, chunk) pair is already recorded is dropped with
no state change. -/
theorem process_chunk_of_duplicate (c : Collector) (ch : ChunkResult)
    (hdup : isDuplicateChunk c ch = true) : process_chunk c ch = (false, c) := by
  rcases process_chunk_result c ch with ⟨h1, h2⟩ | ⟨fam, device, hv, hcf, hdev, hdup2, heq⟩
  · exact Prod.ext h1 h2
  · exfalso
    unfold isDuplicateChunk at hdup
    rw [hcf] at hdup
    simp only at hdup
    rw [hdev] at hdup
    simp only [decide_eq_true_eq] at hdup
    have hsome : (assocFind (chunkSessionId ch) device.received_sessions).isSome := by
      cases hfind : assocFind (chunkSessionId ch) device.received_sessions
      · rw [hfind] at hdup; simp at hdup
      · simp
    have hens : ensureSession device (chunkSessionId ch) = device := by
      unfold ensureSession
      rw [if_pos hsome]
    rw [hens] at hdup2
    exact absurd hdup hdup2

/-- received_sessions after storeChunk: the chunk id appended at its session. -/
theorem storeChunk_received (device1 : Device) (ch : ChunkResult)
    (sid cid : Int) :
    (storeChunk device1 ch sid cid).received_sessions
      = assocAppend sid cid device1.received_sessions := rfl

/-- storeChunk keeps the header-derived fields. -/
theorem storeChunk_fields (device1 : Device) (ch : ChunkResult) (sid cid : Int) :
    (storeChunk device1 ch sid cid).total_chunks = device1.total_chunks
    ∧ (storeChunk device1 ch sid cid).expected_sessions = device1.expected_sessions
    ∧ (storeChunk device1 ch sid cid).saved = device1.saved :=
  ⟨rfl, rfl, rfl⟩

/-- ensureSession keeps everything except the two session maps. -/
theorem ensureSession_fields (device : Device) (sid : Int) :
    (ensureSession device sid).total_chunks = device.total_chunks
    ∧ (ensureSession device sid).expected_sessions = device.expected_sessions
    ∧ (ensureSession device sid).saved = device.saved
    ∧ (ensureSession device sid).pins = device.pins := by
  unfold ensureSession
  by_cases h : (assocFind sid device.received_sessions).isSome <;>
    simp [h]

theorem filter_weak_devices_of_find {c : Collector} {fam : String} {device : Device}
    (h : assocFind fam c.devices = some device) :
    (filter_weak_connections c fam).devices
      = assocSet fam { device with pins := maskPins c device } c.devices := by
  unfold filter_weak_connections
  rw [h]

theorem filter_weak_runs_of_find {c : Collector} {fam : String} {device : Device}
    (h : assocFind fam c.devices = some device) :
    (filter_weak_connections c fam).filter_runs = c.filter_runs + 1
    ∧ (filter_weak_connections c fam).phase_runs = c.phase_runs := by
  unfold filter_weak_connections
  rw [h]
  exact ⟨rfl, rfl⟩

/-- The device stored for fam by a successful chunk: the stored device, with
its pins rewritten by the masking pass when it is complete. -/
theorem chunkSuccState_find_self (c : Collector) (fam : String) (device : Device)
    (ch : ChunkResult) :
    ∃ pins',
      assocFind fam (chunkSuccState c fam device ch).devices
        = some { chunkStoredDevice device ch with pins := pins' } := by
  unfold chunkSuccState
  dsimp only
  by_cases h5 : (chunkStoredDevice device ch).complete
  · rw [if_pos h5]
    have hfind :
        assocFind fam
          (assocSet fam (chunkStoredDevice device ch) c.devices)
          = some (chunkStoredDevice device ch) :=
      assocFind_assocSet_self fam _ c.devices
    rw [filter_weak_devices_of_find hfind]
    exact ⟨_, assocFind_assocSet_self fam _ _⟩
  · rw [if_neg h5]
    exact ⟨(chunkStoredDevice device ch).pins, assocFind_assocSet_self fam _ c.devices⟩

/-- After a successful process_chunk, the same packet is a recorded
duplicate. -/
theorem process_chunk_records (c : Collector) (ch : ChunkResult)
    (h : (process_chunk c ch).1 = true) :
    isDuplicateChunk (process_chunk c ch).2 ch = true := by
  rcases process_chunk_result c ch with ⟨h1, _⟩ | ⟨fam, device, _, hcf, _, _, heq⟩
  · rw [h] at h1; exact absurd h1 (by simp)
  · rw [heq]
    unfold isDuplicateChunk
    dsimp only
    rw [currentFamily_eq_of (chunkSuccState_current c fam device ch), hcf]
    simp only
    obtain ⟨pins', hfind⟩ := chunkSuccState_find_self c fam device ch
    rw [hfind]
    simp only
    have hrec : ({ chunkStoredDevice device ch with pins := pins' } : Device).received_sessions
        = assocAppend (chunkSessionId ch) (chunkChunkId ch)
            (ensureSession device (chunkSessionId ch)).received_sessions := by
      show (chunkStoredDevice device ch).received_sessions = _
      exact storeChunk_received _ ch _ _
    rw [hrec, assocFind_assocAppend_self]
    simp

/-- Claim C2 (confirmed): with an active device, processing the same chunk
packet twice changes the collector only on the first call; the second call
returns False (dropped, not an error) and leaves the whole collector state,
hence every device record, unchanged. -/
theorem spec2proof_c2 (c : Collector) (fam : String) (d : Device)
    (_hcur : currentFamily c = some fam)
    (_hdev : assocFind fam c.devices = some d)
    (ch : ChunkResult) :
    process_chunk (process_chunk c ch).2 ch = (false, (process_chunk c ch).2) := by
  cases hres : (process_chunk c ch).1 with
  | false =>
    have h2 := process_chunk_false c ch hres
    rw [h2]
    exact Prod.ext hres h2
  | true =>
    exact process_chunk_of_duplicate _ _ (process_chunk_records c ch hres)

/-- Device stored for NRF after the demo header. -/
def c2_state : Collector := applyOps [PacketOp.header hdrNRF]

/-- Witness for C2: the concrete NRF collector with an active device, and a
concrete chunk processed twice; the second call is the dropped no-op. -/
theorem spec2proof_c2_witness :
    currentFamily c2_state = some "NRF"
    ∧ assocFind "NRF" c2_state.devices
        = some ((assocFind "NRF" c2_state.devices).getD default)
    ∧ process_chunk (process_chunk c2_state (chk 0 0)).2 (chk 0 0)
        = (false, (process_chunk c2_state (chk 0 0)).2) :=
  ⟨by decide, by decide,
   spec2proof_c2 c2_state "NRF" ((assocFind "NRF" c2_state.devices).getD default)
     (by decide) (by decide) (chk 0 0)⟩

/-! ## Completion invariant (C1 machinery) -/

/-- Spec-side completion predicate, from the words of the spec: for every
session index in [0, expected_sessions), the set of received chunk ids
recorded for that session (empty when nothing was recorded) has exactly
total_chunks members. -/
def spec_complete_pred (d : Device) : Bool :=
  (intRange d.expected_sessions).all
    (fun s_id =>
      decide (((((assocFind s_id d.received_sessions).getD []).toFinset.card : Nat) : Int)
        = d.total_chunks))

/-- Invariant carried by every device created from a non-degenerate header:
positive chunk and session counts, duplicate-free chunk-id sets, and a
complete flag that equals the completion predicate as the code computes it. -/
def DeviceInv (d : Device) : Prop :=
  1 ≤ d.total_chunks ∧ 1 ≤ d.expected_sessions
  ∧ (∀ p ∈ d.received_sessions, p.2.Nodup)
  ∧ d.complete = code_complete_pred d

/-- Invariant over all devices of a collector. -/
def InvAll (c : Collector) : Prop :=
  ∀ fam d, assocFind fam c.devices = some d → DeviceInv d

theorem list_all_congr {alpha : Type} {l : List alpha} {p q : alpha → Bool}
    (h : ∀ x ∈ l, p x = q x) : l.all p = l.all q := by
  induction l with
  | nil => rfl
  | cons hd tl ih =>
    simp only [List.all_cons]
    rw [h hd (List.mem_cons_self hd tl), ih (fun x hx => h x (List.mem_cons_of_mem hd hx))]

theorem assocSet_assocSet {alpha beta : Type} [DecidableEq alpha] (k : alpha)
    (v1 v2 : beta) (l : List (alpha × beta)) :
    assocSet k v2 (assocSet k v1 l) = assocSet k v2 l := by
  induction l with
  | nil => simp [assocSet]
  | cons hd tl ih =>
    by_cases h : hd.1 = k <;> simp [assocSet, h, ih]

theorem assocAppend_nodup {v : Int} {k : Int} {l : List (Int × List Int)}
    (hnd : ∀ p ∈ l, p.2.Nodup)
    (hv : v ∉ (assocFind k l).getD []) :
    ∀ p ∈ assocAppend k v l, p.2.Nodup := by
  induction l with
  | nil =>
    intro p hp
    simp only [assocAppend, List.mem_singleton] at hp
    subst hp
    simp
  | cons hd tl ih =>
    intro p hp
    by_cases h : hd.1 = k
    · obtain ⟨a, b⟩ := hd
      simp only at h
      subst h
      simp only [assocAppend, if_pos rfl] at hp
      rcases List.mem_cons.mp hp with hp | hp
      · subst hp
        simp only [assocFind, if_pos rfl, Option.getD_some] at hv
        exact List.Nodup.append (hnd (a, b) (List.mem_cons_self _ _)) (by simp)
          (by simp [List.disjoint_right]; intro hmem; exact absurd hmem hv)
      · exact hnd p (List.mem_cons_of_mem _ hp)
    · simp only [assocAppend, if_neg h] at hp
      rcases List.mem_cons.mp hp with hp | hp
      · subst hp
        exact hnd _ (List.mem_cons_self _ _)
      · refine ih (fun q hq => hnd q (List.mem_cons_of_mem _ hq)) ?_ p hp
        rw [show assocFind k (hd :: tl) = assocFind k tl from by
          simp [assocFind, h]] at hv
        exact hv

/-- The complete flag stored by storeChunk equals the completion predicate as
the code computes it, whenever expected_sessions is nonnegative. -/
theorem countP_complete_eq_code (d4 : Device) (hes : 0 ≤ d4.expected_sessions) :
    (decide ((((intRange d4.expected_sessions).countP (session_done d4) : Nat) : Int)
      = d4.expected_sessions)) = code_complete_pred d4 := by
  have hlen : (intRange d4.expected_sessions).length = d4.expected_sessions.toNat := by
    unfold intRange
    rw [List.length_map, List.length_range]
  have hle : (intRange d4.expected_sessions).countP (session_done d4)
      ≤ (intRange d4.expected_sessions).length := List.countP_le_length _
  by_cases hall : ∀ s ∈ intRange d4.expected_sessions, session_done d4 s = true
  · have hc : (intRange d4.expected_sessions).countP (session_done d4)
        = (intRange d4.expected_sessions).length :=
      List.countP_eq_length.mpr hall
    have hcode : code_complete_pred d4 = true := List.all_eq_true.mpr hall
    rw [hcode, hc, hlen]
    simp [Int.toNat_of_nonneg hes]
  · have hcode : code_complete_pred d4 = false := by
      cases h : code_complete_pred d4
      · rfl
      · exact absurd (List.all_eq_true.mp h) hall
    have hne : (intRange d4.expected_sessions).countP (session_done d4)
        ≠ (intRange d4.expected_sessions).length := by
      intro h
      exact hall (List.countP_eq_length.mp h)
    rw [hcode]
    simp only [decide_eq_false_iff_not]
    intro h
    apply hne
    rw [hlen]
    omega

/-- One session of the code predicate equals the corresponding session of
the spec predicate when total_chunks is positive and the recorded sets are
duplicate-free. -/
theorem session_done_eq_spec (d : Device) (htc : 1 ≤ d.total_chunks)
    (hnd : ∀ p ∈ d.received_sessions, p.2.Nodup) (s : Int) :
    session_done d s
      = decide (((((assocFind s d.received_sessions).getD []).toFinset.card : Nat) : Int)
          = d.total_chunks) := by
  unfold session_done
  cases hfind : assocFind s d.received_sessions with
  | none =>
    simp only [Option.getD_none, List.toFinset_nil, Finset.card_empty, Nat.cast_zero]
    symm
    simp only [decide_eq_false_iff_not]
    omega
  | some l =>
    have hl : l.Nodup := hnd (s, l) (mem_of_assocFind_eq_some hfind)
    simp only [Option.getD_some, List.toFinset_card_of_nodup hl]

/-- The code predicate equals the spec predicate on invariant devices. -/
theorem code_eq_spec (d : Device) (htc : 1 ≤ d.total_chunks)
    (hnd : ∀ p ∈ d.received_sessions, p.2.Nodup) :
    code_complete_pred d = spec_complete_pred d := by
  unfold code_complete_pred spec_complete_pred
  exact list_all_congr (fun s _ => session_done_eq_spec d htc hnd s)

theorem invAll_init : InvAll Collector.init := by
  intro fam d h
  simp [Collector.init, assocFind] at h

/-- The invariant ignores the pin list. -/
theorem deviceInv_pins (pins' : List Pin) {d : Device} (h : DeviceInv d) :
    DeviceInv { d with pins := pins' } := h

theorem invAll_header (c : Collector) (h : HeaderResult)
    (hg : goodOp (PacketOp.header h) = true) (hc : InvAll c) :
    InvAll (process_header c h).2 := by
  unfold process_header
  by_cases hv : h.hash_valid = false
  · rw [if_pos hv]; exact hc
  · rw [if_neg hv]
    split
    · exact hc
    · rename_i fam hf
      unfold goodOp at hg
      simp only [Bool.and_eq_true, decide_eq_true_eq] at hg
      intro fam' d hfind
      dsimp only at hfind
      by_cases hff : fam' = fam
      · subst hff
        rw [assocFind_assocSet_self] at hfind
        obtain rfl := Option.some.inj hfind
        refine ⟨hg.1, hg.2, ?_, ?_⟩
        · intro p hp
          simp at hp
        · cases hcode : code_complete_pred
              { total_chunks := (h.data.total_chunks).getD 0,
                expected_sessions := (h.data.expected_sessions).getD 1,
                pins := [], received_sessions := [], raw_header := h.raw_bytes,
                raw_session_chunks := [], complete := false, saved := false,
                uuid := h.data.uuid, git_commit := h.data.version }
          · rfl
          · exfalso
            have h0 : (0 : Int) ∈ intRange ((h.data.expected_sessions).getD 1) := by
              unfold intRange
              refine List.mem_map.mpr ⟨0, List.mem_range.mpr ?_, rfl⟩
              have := hg.2
              omega
            have hsd := List.all_eq_true.mp hcode 0 h0
            simp [session_done, assocFind] at hsd
      · rw [assocFind_assocSet_ne _ _ _ _ hff] at hfind
        exact hc fam' d hfind

/-- The devices map after a successful chunk: the stored device (with pins
possibly rewritten by the masking pass) assigned over the previous map. -/
theorem chunkSuccState_devices (c : Collector) (fam : String) (device : Device)
    (ch : ChunkResult) :
    ∃ pins', (chunkSuccState c fam device ch).devices
      = assocSet fam { chunkStoredDevice device ch with pins := pins' } c.devices
      ∧ (pins' = (chunkStoredDevice device ch).pins
         ∨ pins' = maskPins
             { c with devices := assocSet fam (chunkStoredDevice device ch) c.devices }
             (chunkStoredDevice device ch)) := by
  unfold chunkSuccState
  dsimp only
  by_cases h5 : (chunkStoredDevice device ch).complete
  · rw [if_pos h5]
    have hfind : assocFind fam (assocSet fam (chunkStoredDevice device ch) c.devices)
        = some (chunkStoredDevice device ch) := assocFind_assocSet_self fam _ c.devices
    rw [filter_weak_devices_of_find hfind, assocSet_assocSet]
    exact ⟨_, rfl, Or.inr rfl⟩
  · rw [if_neg h5]
    exact ⟨(chunkStoredDevice device ch).pins, rfl, Or.inl rfl⟩

theorem ensureSession_nodup {device : Device} {sid : Int}
    (hnd : ∀ p ∈ device.received_sessions, p.2.Nodup) :
    ∀ p ∈ (ensureSession device sid).received_sessions, p.2.Nodup := by
  unfold ensureSession
  by_cases h : (assocFind sid device.received_sessions).isSome
  · rw [if_pos h]; exact hnd
  · rw [if_neg h]
    intro p hp
    simp only [List.mem_append, List.mem_singleton] at hp
    rcases hp with hp | hp
    · exact hnd p hp
    · subst hp
      simp

/-- The complete flag written by storeChunk is the code completion predicate
of the stored device. -/
theorem storeChunk_complete (device1 : Device) (ch : ChunkResult) (sid cid : Int)
    (hes : 0 ≤ device1.expected_sessions) :
    (storeChunk device1 ch sid cid).complete
      = code_complete_pred (storeChunk device1 ch sid cid) :=
  countP_complete_eq_code (storeChunk device1 ch sid cid) hes

theorem deviceInv_stored {device : Device} (ch : ChunkResult)
    (hinv : DeviceInv device)
    (hdup : chunkChunkId ch ∉
      (assocFind (chunkSessionId ch)
        (ensureSession device (chunkSessionId ch)).received_sessions).getD []) :
    DeviceInv (chunkStoredDevice device ch) := by
  obtain ⟨htc, hes, hnd, _⟩ := hinv
  have hef := ensureSession_fields device (chunkSessionId ch)
  have hsf := storeChunk_fields (ensureSession device (chunkSessionId ch)) ch
    (chunkSessionId ch) (chunkChunkId ch)
  refine ⟨?_, ?_, ?_, ?_⟩
  · unfold chunkStoredDevice
    rw [hsf.1, hef.1]
    exact htc
  · unfold chunkStoredDevice
    rw [hsf.2.1, hef.2.1]
    exact hes
  · unfold chunkStoredDevice
    rw [storeChunk_received]
    exact assocAppend_nodup (ensureSession_nodup hnd) hdup
  · unfold chunkStoredDevice
    refine storeChunk_complete _ ch _ _ ?_
    rw [hef.2.1]
    omega

theorem invAll_chunk (c : Collector) (ch : ChunkResult) (hc : InvAll c) :
    InvAll (process_chunk c ch).2 := by
  rcases process_chunk_result c ch with ⟨_, h2⟩ | ⟨fam, device, hv, hcf, hdev, hdup, heq⟩
  · rw [h2]; exact hc
  · rw [heq]
    obtain ⟨pins', hdevs, _⟩ := chunkSuccState_devices c fam device ch
    intro fam' d hfind
    dsimp only at hfind
    rw [hdevs] at hfind
    by_cases hff : fam' = fam
    · subst hff
      rw [assocFind_assocSet_self] at hfind
      obtain rfl := Option.some.inj hfind
      exact deviceInv_pins _ (deviceInv_stored ch (hc _ device hdev) hdup)
    · rw [assocFind_assocSet_ne _ _ _ _ hff] at hfind
      exact hc fam' d hfind

theorem invAll_foldl :
    ∀ (ops : List PacketOp) (c : Collector), InvAll c →
      (∀ op ∈ ops, goodOp op = true) → InvAll (ops.foldl applyOp c) := by
  intro ops
  induction ops with
  | nil => intro c hc _; exact hc
  | cons hd tl ih =>
    intro c hc hg
    rw [List.foldl_cons]
    refine ih _ ?_ (fun op hop => hg op (List.mem_cons_of_mem _ hop))
    cases hd with
    | header h => exact invAll_header c h (hg _ (List.mem_cons_self _ _)) hc
    | chunk ch => exact invAll_chunk c ch hc

theorem invAll_applyOps (ops : List PacketOp)
    (hg : ∀ op ∈ ops, goodOp op = true) : InvAll (applyOps ops) :=
  invAll_foldl ops Collector.init invAll_init hg

/-- Claim C1 (amended: headers are required to announce total_chunks at least
1 and expected_sessions at least 1; the claim as stated fails on a header
with total_chunks 0, see the counterexample).  After any sequence of
process_header / process_chunk calls made of such packets, every device is
complete exactly when, for every session index in [0, expected_sessions),
the recorded chunk-id set of that session has exactly total_chunks members;
and a duplicate chunk processed on a complete device never reverts the
complete flag. -/
theorem spec2proof_c1 :
    (∀ ops : List PacketOp, (∀ op ∈ ops, goodOp op = true) →
      ∀ fam d, assocFind fam (applyOps ops).devices = some d →
        (d.complete = true ↔ spec_complete_pred d = true))
    ∧ (∀ (c : Collector) (ch : ChunkResult) (fam : String) (d : Device),
        currentFamily c = some fam →
        assocFind fam c.devices = some d →
        d.complete = true →
        isDuplicateChunk c ch = true →
        ∀ d', assocFind fam (process_chunk c ch).2.devices = some d' →
          d'.complete = true) := by
  constructor
  · intro ops hg fam d hfind
    obtain ⟨htc, _, hnd, hcomp⟩ := invAll_applyOps ops hg fam d hfind
    rw [hcomp, code_eq_spec d htc hnd]
  · intro c ch fam d _ hdev hcomp hdup d' hfind'
    rw [process_chunk_of_duplicate c ch hdup] at hfind'
    dsimp only at hfind'
    rw [hdev] at hfind'
    obtain rfl := Option.some.inj hfind'
    exact hcomp

/-- C1 counterexample: a checksum-valid header for family NRF whose body
carries no total_chunks field (stored default 0).  Immediately afterwards the
device's complete flag is false, yet for every session index in [0, 1) the
recorded chunk-id set (empty) has exactly total_chunks = 0 members, so the
claimed equivalence fails on this state. -/
theorem spec2proof_c1_counterexample :
    ((assocFind "NRF" (applyOps [PacketOp.header hdrNRF0]).devices).map Device.complete
      = some false)
    ∧ ((assocFind "NRF" (applyOps [PacketOp.header hdrNRF0]).devices).map spec_complete_pred
      = some true)
    ∧ ((assocFind "NRF" (applyOps [PacketOp.header hdrNRF0]).devices).map
        (fun d => d.expected_sessions) = some 1) :=
  ⟨by decide, by decide, by decide⟩

/-- The packet sequence of the end-to-end scenario, first chunk only. -/
def c1_ops2 : List PacketOp := [PacketOp.header hdrNRF, PacketOp.chunk (chk 0 0)]

/-- The packet sequence of the end-to-end scenario, both chunks. -/
def c1_ops3 : List PacketOp :=
  [PacketOp.header hdrNRF, PacketOp.chunk (chk 0 0), PacketOp.chunk (chk 0 1)]

/-- The NRF device after the full end-to-end scenario. -/
def c1_dev3 : Device := (assocFind "NRF" (applyOps c1_ops3).devices).getD default

/-- The NRF device after reprocessing the duplicate first chunk. -/
def c1_dev3dup : Device :=
  (assocFind "NRF" (process_chunk (applyOps c1_ops3) (chk 0 0)).2.devices).getD default

/-- Witness for C1 on the end-to-end scenario of the spec: total_chunks 2,
expected_sessions 1, chunks 0 and 1; complete is false after the first chunk
and true after the second, the equivalence of the theorem holds there, and a
duplicate of chunk 0 keeps the device complete. -/
theorem spec2proof_c1_witness :
    ((assocFind "NRF" (applyOps c1_ops2).devices).map Device.complete = some false)
    ∧ assocFind "NRF" (applyOps c1_ops3).devices = some c1_dev3
    ∧ (c1_dev3.complete = true ↔ spec_complete_pred c1_dev3 = true)
    ∧ c1_dev3.complete = true
    ∧ c1_dev3dup.complete = true :=
  ⟨by decide, by decide,
   spec2proof_c1.1 c1_ops3 (by decide) "NRF" c1_dev3 (by decide),
   by decide,
   spec2proof_c1.2 (applyOps c1_ops3) (chk 0 0) "NRF" c1_dev3 (by decide) (by decide)
     (by decide) (by decide) c1_dev3dup (by decide)⟩

/-! ## is_complete (C10) -/

/-- Closed form of the saving loop of is_complete. -/
theorem is_complete_foldl (l : List (String × Device)) :
    ∀ acc : List (String × Device) × List String,
      l.foldl (fun acc fd =>
        if fd.2.complete && !fd.2.saved then
          (acc.1 ++ [(fd.1, { fd.2 with saved := true })], acc.2 ++ [fd.1])
        else (acc.1 ++ [fd], acc.2)) acc
      = (acc.1 ++ l.map (fun fd =>
            if fd.2.complete && !fd.2.saved then (fd.1, { fd.2 with saved := true }) else fd),
         acc.2 ++ (l.filter (fun fd => fd.2.complete && !fd.2.saved)).map Prod.fst) := by
  induction l with
  | nil => intro acc; simp
  | cons hd tl ih =>
    intro acc
    rw [List.foldl_cons]
    by_cases h : (hd.2.complete && !hd.2.saved) = true
    · have hp := h
      simp only [Bool.and_eq_true, Bool.not_eq_true'] at hp
      rw [if_pos h, ih]
      simp [hp]
    · have hp := h
      simp only [Bool.and_eq_true, Bool.not_eq_true'] at hp
      rw [if_neg h, ih]
      simp [hp]

/-- After the saving pass no device is both complete and unsaved. -/
theorem saved_after_pass (l : List (String × Device)) :
    (l.map (fun fd =>
        if fd.2.complete && !fd.2.saved then (fd.1, { fd.2 with saved := true }) else fd)).filter
      (fun fd => fd.2.complete && !fd.2.saved) = [] := by
  rw [List.filter_eq_nil_iff]
  intro x hx
  obtain ⟨fd, _, hfd⟩ := List.mem_map.mp hx
  by_cases h : fd.2.complete && !fd.2.saved
  · rw [if_pos h] at hfd
    subst hfd
    simp
  · rw [if_neg h] at hfd
    subst hfd
    simpa using h

/-- The family list emitted by one is_complete call. -/
theorem is_complete_out (c : Collector) :
    (is_complete_call c).2.2
      = (c.devices.filter (fun fd => fd.2.complete && !fd.2.saved)).map Prod.fst := by
  show (c.devices.foldl _ ([], [])).2 = _
  rw [is_complete_foldl]
  simp

/-- The collector state after one is_complete call. -/
theorem is_complete_state (c : Collector) :
    (is_complete_call c).2.1
      = { c with devices := c.devices.map (fun fd =>
            if fd.2.complete && !fd.2.saved then (fd.1, { fd.2 with saved := true })
            else fd) } := by
  show { c with devices := (c.devices.foldl _ ([], [])).1 } = _
  rw [is_complete_foldl]
  simp

/-- Claim C10 (confirmed): is_complete always returns False; its only effect
is to emit one report per complete unsaved device and set that device's
saved flag, so a second call emits nothing; and the monitor's
post-completion branch guarded by the return value never executes. -/
theorem spec2proof_c10 (c : Collector) :
    (is_complete_call c).1 = false
    ∧ (is_complete_call c).2.2
        = (c.devices.filter (fun fd => fd.2.complete && !fd.2.saved)).map Prod.fst
    ∧ (is_complete_call c).2.1
        = { c with devices := c.devices.map (fun fd =>
              if fd.2.complete && !fd.2.saved then (fd.1, { fd.2 with saved := true })
              else fd) }
    ∧ (is_complete_call (is_complete_call c).2.1).2.2 = []
    ∧ monitor_completion_branch c = false := by
  refine ⟨rfl, is_complete_out c, is_complete_state c, ?_, rfl⟩
  rw [is_complete_state c, is_complete_out]
  dsimp only
  rw [saved_after_pass]
  rfl

/-! ## Sentinel bodies (C3) -/

theorem assocFind_append_of_none {alpha beta : Type} [DecidableEq alpha] {k : alpha}
    {l1 : List (alpha × beta)} (h : assocFind k l1 = none) (l2 : List (alpha × beta)) :
    assocFind k (l1 ++ l2) = assocFind k l2 := by
  induction l1 with
  | nil => simp
  | cons hd tl ih =>
    obtain ⟨a, b⟩ := hd
    by_cases h2 : a = k
    · simp [assocFind, h2] at h
    · simp only [List.cons_append, assocFind, h2, if_false] at h ⊢
      exact ih h

/-- A successful chunk evaluates to chunkSuccState. -/
theorem process_chunk_success (c : Collector) (ch : ChunkResult) (fam : String)
    (device : Device)
    (hv : ch.hash_valid = true)
    (hcf : currentFamily c = some fam)
    (hdev : assocFind fam c.devices = some device)
    (hdup : chunkChunkId ch ∉
      (assocFind (chunkSessionId ch)
        (ensureSession device (chunkSessionId ch)).received_sessions).getD []) :
    process_chunk c ch = (true, chunkSuccState c fam device ch) := by
  rcases process_chunk_result c ch with ⟨h1, h2⟩ | ⟨fam2, device2, _, hcf2, hdev2, _, heq⟩
  · exfalso
    unfold process_chunk at h1 h2
    rw [if_neg (by simp [hv])] at h1 h2
    rw [hcf] at h1 h2
    simp only at h1 h2
    rw [hdev] at h1 h2
    simp only at h1 h2
    rw [if_neg hdup] at h1
    simp at h1
  · rw [hcf] at hcf2
    rw [heq]
    obtain rfl := Option.some.inj hcf2
    rw [hdev] at hdev2
    obtain rfl := Option.some.inj hdev2
    rfl

/-- Claim C3 (amended): the codec substitutes the sentinel error map and the
sentinel carries no integer keys, so process_header rejects it with no state
change; but process_chunk does NOT treat a checksum-valid sentinel-bodied
packet as invalid: with an active device it records the packet id as a fresh
chunk of session 0 (see the counterexample for a state mutation). -/
theorem spec2proof_c3 :
    (∀ (c : Collector) (h : HeaderResult), h.data = HeaderData.sentinel →
        process_header c h = (false, c))
    ∧ (∀ (c : Collector) (ch : ChunkResult) (fam : String) (d : Device),
        ch.data = ChunkData.sentinel → ch.hash_valid = true →
        currentFamily c = some fam → assocFind fam c.devices = some d →
        (ch.packet_id).getD (-1) ∉ (assocFind 0 d.received_sessions).getD [] →
        (process_chunk c ch).1 = true
        ∧ ∃ d', assocFind fam (process_chunk c ch).2.devices = some d'
            ∧ (assocFind 0 d'.received_sessions).getD []
                = ((assocFind 0 d.received_sessions).getD [])
                  ++ [(ch.packet_id).getD (-1)]) := by
  constructor
  · intro c h hd
    unfold process_header
    rw [hd]
    by_cases hv : h.hash_valid = false
    · rw [if_pos hv]
    · rw [if_neg hv]
      rfl
  · intro c ch fam d hd hv hcf hdev hndup
    have hsid : chunkSessionId ch = 0 := by
      unfold chunkSessionId
      rw [hd]
      rfl
    have hcid : chunkChunkId ch = (ch.packet_id).getD (-1) := by
      unfold chunkChunkId
      rw [hd]
      rfl
    have hgetD : (assocFind (chunkSessionId ch)
        (ensureSession d (chunkSessionId ch)).received_sessions).getD []
        = (assocFind 0 d.received_sessions).getD [] := by
      rw [hsid]
      unfold ensureSession
      by_cases hs : (assocFind (0 : Int) d.received_sessions).isSome
      · rw [if_pos hs]
      · rw [if_neg hs]
        have hnone : assocFind (0 : Int) d.received_sessions = none :=
          Option.not_isSome_iff_eq_none.mp hs
        show (assocFind (0 : Int)
          (d.received_sessions ++ [((0 : Int), ([] : List Int))])).getD [] = _
        rw [assocFind_append_of_none hnone, hnone]
        simp [assocFind]
    have hdup : chunkChunkId ch ∉
        (assocFind (chunkSessionId ch)
          (ensureSession d (chunkSessionId ch)).received_sessions).getD [] := by
      rw [hcid, hgetD]
      exact hndup
    rw [process_chunk_success c ch fam d hv hcf hdev hdup]
    refine ⟨rfl, ?_⟩
    obtain ⟨pins', hfind⟩ := chunkSuccState_find_self c fam d ch
    refine ⟨_, hfind, ?_⟩
    have hrec : ({ chunkStoredDevice d ch with pins := pins' } : Device).received_sessions
        = assocAppend (chunkSessionId ch) (chunkChunkId ch)
            (ensureSession d (chunkSessionId ch)).received_sessions := by
      show (chunkStoredDevice d ch).received_sessions = _
      exact storeChunk_received _ ch _ _
    rw [hrec, hsid, hcid]
    rw [assocFind_assocAppend_self, Option.getD_some]
    rw [hsid] at hgetD
    rw [hgetD]

/-- Collector with an active NRF device expecting one single-chunk session. -/
def c3_state : Collector := applyOps [PacketOp.header hdrNRF1]

/-- The NRF device of c3_state. -/
def c3_dev : Device := (assocFind "NRF" c3_state.devices).getD default

/-- C3 counterexample: a checksum-valid chunk whose body is the sentinel
error map is NOT treated as checksum-invalid by process_chunk: on a collector
with an active device it is accepted (returns True), mutates the device
state, and here even flips the device to complete. -/
theorem spec2proof_c3_counterexample :
    (process_chunk c3_state sentinelChk).1 = true
    ∧ (process_chunk c3_state sentinelChk).2 ≠ c3_state
    ∧ ((assocFind "NRF" (process_chunk c3_state sentinelChk).2.devices).map Device.complete
        = some true)
    ∧ ((assocFind "NRF" c3_state.devices).map Device.complete = some false) :=
  ⟨by decide, by decide, by decide, by decide⟩

/-- Witness for C3 (amended): the sentinel header leaves any collector
unchanged, and the sentinel chunk on the concrete NRF collector is accepted
and records packet id 0 under session 0. -/
theorem spec2proof_c3_witness :
    process_header c3_state
        { hash_valid := true, data := HeaderData.sentinel, raw_bytes := [] }
      = (false, c3_state)
    ∧ (process_chunk c3_state sentinelChk).1 = true
    ∧ ((assocFind "NRF" (process_chunk c3_state sentinelChk).2.devices).map
        (fun d => (assocFind 0 d.received_sessions).getD []) = some [0]) :=
  ⟨spec2proof_c3.1 c3_state
     { hash_valid := true, data := HeaderData.sentinel, raw_bytes := [] } rfl,
   (spec2proof_c3.2 c3_state sentinelChk "NRF" c3_dev rfl rfl (by decide) (by decide)
     (by decide)).1,
   by decide⟩

/-! ## Every stored strength is None (C9 machinery) -/

/-- All devices of a collector store only undefined strengths. -/
def StrengthNone (c : Collector) : Prop :=
  ∀ fam d, assocFind fam c.devices = some d → ∀ p ∈ d.pins, p.strength = none

theorem strengthNone_init : StrengthNone Collector.init := by
  intro fam d h
  simp [Collector.init, assocFind] at h

/-- The pin list of the stored device is the pin fold over the previous
pins. -/
theorem chunkStoredDevice_pins (device : Device) (ch : ChunkResult) :
    (chunkStoredDevice device ch).pins
      = ((ch.data.pins).getD []).foldl process_pin_entry device.pins := by
  show ((ch.data.pins).getD []).foldl process_pin_entry
    (ensureSession device (chunkSessionId ch)).pins = _
  rw [(ensureSession_fields device (chunkSessionId ch)).2.2.2]

/-- The masking pass only rewrites connections: events, strength and pin
number of every pin come from a pin of the unmasked device. -/
theorem maskPins_origin (c : Collector) (device : Device) :
    ∀ p ∈ maskPins c device, ∃ q ∈ device.pins,
      p.events = q.events ∧ p.strength = q.strength ∧ p.pin = q.pin := by
  unfold maskPins
  intro p hp
  obtain ⟨q, hq, rfl⟩ := List.mem_map.mp hp
  exact ⟨q, hq, rfl, rfl, rfl⟩

theorem strengthNone_header (c : Collector) (h : HeaderResult)
    (hc : StrengthNone c) : StrengthNone (process_header c h).2 := by
  unfold process_header
  by_cases hv : h.hash_valid = false
  · rw [if_pos hv]; exact hc
  · rw [if_neg hv]
    split
    · exact hc
    · rename_i fam hf
      intro fam' d hfind
      dsimp only at hfind
      by_cases hff : fam' = fam
      · subst hff
        rw [assocFind_assocSet_self] at hfind
        obtain rfl := Option.some.inj hfind
        intro p hp
        simp at hp
      · rw [assocFind_assocSet_ne _ _ _ _ hff] at hfind
        exact hc fam' d hfind

theorem strengthNone_chunk (c : Collector) (ch : ChunkResult)
    (hc : StrengthNone c) : StrengthNone (process_chunk c ch).2 := by
  rcases process_chunk_result c ch with ⟨_, h2⟩ | ⟨fam, device, hv, hcf, hdev, hdup, heq⟩
  · rw [h2]; exact hc
  · rw [heq]
    obtain ⟨pins', hdevs, hpins⟩ := chunkSuccState_devices c fam device ch
    intro fam' d hfind
    dsimp only at hfind
    rw [hdevs] at hfind
    by_cases hff : fam' = fam
    · subst hff
      rw [assocFind_assocSet_self] at hfind
      obtain rfl := Option.some.inj hfind
      intro p hp
      have hstored : ∀ q ∈ (chunkStoredDevice device ch).pins, q.strength = none := by
        rw [chunkStoredDevice_pins]
        exact strength_none_foldl _ device.pins (hc _ device hdev)
      rcases hpins with hpins | hpins
      · rw [hpins] at hp
        exact hstored p hp
      · rw [hpins] at hp
        obtain ⟨q, hq, _, hs, _⟩ := maskPins_origin _ _ p hp
        rw [hs]
        exact hstored q hq
    · rw [assocFind_assocSet_ne _ _ _ _ hff] at hfind
      exact hc fam' d hfind

theorem strengthNone_foldl :
    ∀ (ops : List PacketOp) (c : Collector), StrengthNone c →
      StrengthNone (ops.foldl applyOp c) := by
  intro ops
  induction ops with
  | nil => intro c hc; exact hc
  | cons hd tl ih =>
    intro c hc
    rw [List.foldl_cons]
    refine ih _ ?_
    cases hd with
    | header h => exact strengthNone_header c h hc
    | chunk ch => exact strengthNone_chunk c ch hc

/-- Claim C9 (confirmed): the decoder vocabulary contains no STEP stage
names, so the classifier is undefined on every decoded bitmask, and every
pin stored by the collector after any packet sequence has strength None. -/
theorem spec2proof_c9 :
    (∀ mask : Nat, analyze_pin (decode_event_type_one_hot mask) = none)
    ∧ (∀ (ops : List PacketOp) (fam : String) (d : Device),
        assocFind fam (applyOps ops).devices = some d →
        ∀ p ∈ d.pins, p.strength = none) :=
  ⟨analyze_decode_none,
   fun ops => strengthNone_foldl ops Collector.init strengthNone_init⟩

/-- A chunk carrying one pin with event mask 7. -/
def c9_chunk : ChunkResult :=
  { hash_valid := true, packet_id := some 0,
    data := { chunk_id := some 0, stream_number := some 0,
              pins := some [{ pin := some 3, events := some 7, connections := [] }] },
    raw_bytes := [] }

/-- Packet sequence storing one pin. -/
def c9_ops : List PacketOp := [PacketOp.header hdrNRF, PacketOp.chunk c9_chunk]

/-- The NRF device after c9_ops. -/
def c9_dev : Device := (assocFind "NRF" (applyOps c9_ops).devices).getD default

/-- The stored pin of c9_dev. -/
def c9_pin : Pin := (c9_dev.pins.head?).getD default

/-- Witness for C9: the classifier is undefined on the decoded mask 12345,
and the concrete pin stored from a chunk with event mask 7 has strength
None. -/
theorem spec2proof_c9_witness :
    analyze_pin (decode_event_type_one_hot 12345) = none
    ∧ assocFind "NRF" (applyOps c9_ops).devices = some c9_dev
    ∧ c9_pin ∈ c9_dev.pins
    ∧ c9_pin.strength = none :=
  ⟨spec2proof_c9.1 12345, by decide, by decide,
   spec2proof_c9.2 c9_ops "NRF" c9_dev (by decide) c9_pin (by decide)⟩

/-! ## Event round-trip (C8) -/

/-- The known event names (the values of the decoder table). -/
def event_vocab : List String := PIN_EVENT_TYPES.map Prod.snd

theorem encode_foldl_testBit (l : List String) :
    ∀ (acc b : Nat),
      (l.foldl (fun event_bits event =>
        match assocFind event reverse_event_map with
        | some bit_position => event_bits ||| (1 <<< bit_position)
        | none => event_bits) acc).testBit b
      = (acc.testBit b
         || l.any (fun e => decide (assocFind e reverse_event_map = some b))) := by
  induction l with
  | nil => intro acc b; simp
  | cons hd tl ih =>
    intro acc b
    rw [List.foldl_cons, List.any_cons]
    cases hfind : assocFind hd reverse_event_map with
    | none =>
      rw [ih]
      simp [hfind]
    | some p =>
      rw [ih, Nat.testBit_lor]
      have h1 : ((1 : Nat) <<< p).testBit b = decide (p = b) := by
        rw [Nat.shiftLeft_eq, one_mul, Nat.testBit_two_pow]
      rw [h1]
      by_cases hpb : p = b
      · subst hpb
        simp [hfind]
      · simp [hfind, hpb]

/-- Bit b of the encoded mask is set exactly when some event of the list maps
to bit b. -/
theorem encode_testBit (l : List String) (b : Nat) :
    (encode_event_list l).testBit b
      = l.any (fun e => decide (assocFind e reverse_event_map = some b)) := by
  unfold encode_event_list
  rw [encode_foldl_testBit]
  simp

/-- Every vocabulary name encodes to a bit position below 31 that decodes
back to the same name. -/
theorem vocab_ok : (event_vocab.all (fun e =>
    match assocFind e reverse_event_map with
    | some b => decide (b < 31) && (eventName b == e)
    | none => false)) = true := by decide

theorem vocab_spec {e : String} (he : e ∈ event_vocab) :
    ∃ b, assocFind e reverse_event_map = some b ∧ b < 31 ∧ eventName b = e := by
  have h := List.all_eq_true.mp vocab_ok e he
  cases hfind : assocFind e reverse_event_map with
  | none => rw [hfind] at h; simp at h
  | some b =>
    rw [hfind] at h
    simp only [Bool.and_eq_true, decide_eq_true_eq, beq_iff_eq] at h
    exact ⟨b, rfl, h.1, h.2⟩

/-- Claim C8 (confirmed): for any list of known event names, encoding with
encode_event_list and decoding with decode_event_type_one_hot recovers
exactly the same set of names (membership is preserved both ways, hence the
round-trip is order-independent). -/
theorem spec2proof_c8 (events : List String)
    (hvocab : ∀ e ∈ events, e ∈ event_vocab) (x : String) :
    x ∈ decode_event_type_one_hot (encode_event_list events) ↔ x ∈ events := by
  constructor
  · intro hx
    obtain ⟨b, _, htb, hxeq⟩ := (mem_decode_iff _ x).mp hx
    rw [encode_testBit] at htb
    obtain ⟨e, he, heb⟩ := List.any_eq_true.mp htb
    simp only [decide_eq_true_eq] at heb
    obtain ⟨b', hfind', _, hname⟩ := vocab_spec (hvocab e he)
    rw [heb] at hfind'
    obtain rfl := Option.some.inj hfind'
    rw [hxeq, hname]
    exact he
  · intro hx
    obtain ⟨b, hfind, hb31, hname⟩ := vocab_spec (hvocab x hx)
    refine (mem_decode_iff _ x).mpr ⟨b, hb31, ?_, hname.symm⟩
    rw [encode_testBit]
    exact List.any_eq_true.mpr ⟨x, hx, by rw [hfind]; simp⟩

/-- Witness for C8: a two-event set given out of decoder order round-trips to
exactly the same set; a name outside the set stays outside. -/
theorem spec2proof_c8_witness :
    decode_event_type_one_hot
        (encode_event_list ["HANDSHAKE_FAILURE", "PIN_DISTURBED"])
      = ["PIN_DISTURBED", "HANDSHAKE_FAILURE"]
    ∧ ("PIN_DISTURBED" ∈ decode_event_type_one_hot
          (encode_event_list ["HANDSHAKE_FAILURE", "PIN_DISTURBED"])
        ↔ "PIN_DISTURBED" ∈ ["HANDSHAKE_FAILURE", "PIN_DISTURBED"])
    ∧ ("HANDSHAKE_OK_INITIATOR" ∈ decode_event_type_one_hot
          (encode_event_list ["HANDSHAKE_FAILURE", "PIN_DISTURBED"])
        ↔ "HANDSHAKE_OK_INITIATOR" ∈ ["HANDSHAKE_FAILURE", "PIN_DISTURBED"]) :=
  ⟨by decide,
   spec2proof_c8 ["HANDSHAKE_FAILURE", "PIN_DISTURBED"] (by decide) "PIN_DISTURBED",
   spec2proof_c8 ["HANDSHAKE_FAILURE", "PIN_DISTURBED"] (by decide)
     "HANDSHAKE_OK_INITIATOR"⟩

/-! ## Masking run counts (C7) -/

/-- The complete flag of the device the collector currently points at. -/
def currentDeviceComplete (c : Collector) : Bool :=
  match c.current_device_family with
  | none => false
  | some f =>
    match assocFind f c.devices with
    | none => false
    | some d => d.complete

theorem currentFamily_some {c : Collector} {fam : String}
    (h : currentFamily c = some fam) : c.current_device_family = some fam := by
  unfold currentFamily at h
  cases hc : c.current_device_family with
  | none => rw [hc] at h; simp at h
  | some f =>
    rw [hc] at h
    simp only at h
    by_cases hf : f = ""
    · rw [if_pos hf] at h; simp at h
    · rw [if_neg hf] at h
      exact h

/-- Counter effect of a successful chunk: the strength filter runs exactly
when the stored device is complete; phase masking never runs. -/
theorem chunkSuccState_runs (c : Collector) (fam : String) (device : Device)
    (ch : ChunkResult) :
    (chunkSuccState c fam device ch).filter_runs
      = c.filter_runs + (if (chunkStoredDevice device ch).complete then 1 else 0)
    ∧ (chunkSuccState c fam device ch).phase_runs = c.phase_runs := by
  unfold chunkSuccState
  dsimp only
  by_cases h5 : (chunkStoredDevice device ch).complete
  · rw [if_pos h5, if_pos h5]
    have hfind : assocFind fam (assocSet fam (chunkStoredDevice device ch) c.devices)
        = some (chunkStoredDevice device ch) := assocFind_assocSet_self fam _ c.devices
    exact ⟨(filter_weak_runs_of_find hfind).1, (filter_weak_runs_of_find hfind).2⟩
  · rw [if_neg h5, if_neg h5]
    exact ⟨rfl, rfl⟩

theorem chunkSuccState_currentComplete (c : Collector) (fam : String)
    (device : Device) (ch : ChunkResult) (hcf : currentFamily c = some fam) :
    currentDeviceComplete (chunkSuccState c fam device ch)
      = (chunkStoredDevice device ch).complete := by
  unfold currentDeviceComplete
  have hcur : (chunkSuccState c fam device ch).current_device_family = some fam := by
    rw [chunkSuccState_current]
    exact currentFamily_some hcf
  rw [hcur]
  simp only
  obtain ⟨pins', hfind⟩ := chunkSuccState_find_self c fam device ch
  rw [hfind]

theorem mem_keys_isSome {alpha beta : Type} [DecidableEq alpha] {k : alpha}
    {l : List (alpha × beta)} (h : k ∈ l.map Prod.fst) :
    (assocFind k l).isSome := by
  induction l with
  | nil => simp at h
  | cons hd tl ih =>
    simp only [List.map_cons, List.mem_cons] at h
    rcases h with h2 | h2
    · subst h2
      simp [assocFind]
    · by_cases h3 : hd.1 = k
      · simp [assocFind, h3]
      · simp only [assocFind, h3, if_false]
        exact ih h2

theorem assocSet_keys_of_isSome {alpha beta : Type} [DecidableEq alpha] {k : alpha}
    (v : beta) {l : List (alpha × beta)} (h : (assocFind k l).isSome) :
    (assocSet k v l).map Prod.fst = l.map Prod.fst := by
  induction l with
  | nil => simp [assocFind] at h
  | cons hd tl ih =>
    by_cases h2 : hd.1 = k
    · simp [assocSet, h2]
    · simp only [assocFind, h2, if_false] at h
      simp [assocSet, h2, ih h]

theorem apply_phase_masking_of_find {c : Collector} {fam : String} {device : Device}
    (h : assocFind fam c.devices = some device) :
    (apply_phase_masking c fam).phase_runs = c.phase_runs + 1
    ∧ (apply_phase_masking c fam).filter_runs = c.filter_runs
    ∧ ∃ d', (apply_phase_masking c fam).devices = assocSet fam d' c.devices := by
  unfold apply_phase_masking
  rw [h]
  exact ⟨rfl, rfl, _, rfl⟩

theorem mem_insertSorted {s x : String} :
    ∀ {l : List String}, x ∈ insertSorted s l ↔ x = s ∨ x ∈ l := by
  intro l
  induction l with
  | nil => simp [insertSorted]
  | cons hd tl ih =>
    unfold insertSorted
    by_cases h : s ≤ hd
    · rw [if_pos h]
      simp
    · rw [if_neg h]
      simp only [List.mem_cons, ih]
      tauto

theorem length_insertSorted (s : String) :
    ∀ (l : List String), (insertSorted s l).length = l.length + 1 := by
  intro l
  induction l with
  | nil => rfl
  | cons hd tl ih =>
    unfold insertSorted
    by_cases h : s ≤ hd
    · rw [if_pos h]
      rfl
    · rw [if_neg h]
      simp only [List.length_cons, ih]

theorem mem_sortStrings {x : String} :
    ∀ {l : List String}, x ∈ sortStrings l ↔ x ∈ l := by
  intro l
  induction l with
  | nil => simp [sortStrings]
  | cons hd tl ih =>
    show x ∈ insertSorted hd (sortStrings tl) ↔ _
    rw [mem_insertSorted, ih]
    simp

theorem length_sortStrings :
    ∀ (l : List String), (sortStrings l).length = l.length := by
  intro l
  induction l with
  | nil => rfl
  | cons hd tl ih =>
    show (insertSorted hd (sortStrings tl)).length = _
    rw [length_insertSorted, ih]
    rfl

theorem phase_masking_foldl :
    ∀ (fams : List String) (c : Collector),
      (∀ fam ∈ fams, fam ∈ c.devices.map Prod.fst) →
      (fams.foldl apply_phase_masking c).phase_runs = c.phase_runs + fams.length
      ∧ (fams.foldl apply_phase_masking c).filter_runs = c.filter_runs
      ∧ (fams.foldl apply_phase_masking c).devices.map Prod.fst
          = c.devices.map Prod.fst := by
  intro fams
  induction fams with
  | nil => intro c _; exact ⟨rfl, rfl, rfl⟩
  | cons hd tl ih =>
    intro c hmem
    rw [List.foldl_cons]
    have hsome : (assocFind hd c.devices).isSome :=
      mem_keys_isSome (hmem hd (List.mem_cons_self _ _))
    obtain ⟨device, hdev⟩ := Option.isSome_iff_exists.mp hsome
    obtain ⟨hp, hf, d', hdevs⟩ := apply_phase_masking_of_find hdev
    have hkeys : (apply_phase_masking c hd).devices.map Prod.fst
        = c.devices.map Prod.fst := by
      rw [hdevs]
      exact assocSet_keys_of_isSome d' hsome
    have ihh := ih (apply_phase_masking c hd)
      (fun fam hf2 => by rw [hkeys]; exact hmem fam (List.mem_cons_of_mem _ hf2))
    refine ⟨?_, ?_, ?_⟩
    · rw [ihh.1, hp]
      simp [Nat.add_assoc, Nat.add_comm 1]
    · rw [ihh.2.1, hf]
    · rw [ihh.2.2, hkeys]

/-- Connections whose phase the phase-masking pass would compare: in the
model every internal connection carries a non-None parameter (CPython raises
TypeError on a stored None). -/
def no_none_internal_params (c : Collector) : Bool :=
  c.devices.all (fun fd => fd.2.pins.all (fun p => p.connections.all
    (fun conn => decide (conn.conn_type ≠ 0) || conn.parameter.isSome)))

/-- Claim C7 (amended): strength masking is derived on exactly those
successful process_chunk calls that leave the current device complete (so it
can run again on later packets, see the counterexample), never by
process_header or is_complete; phase masking is never derived by
process_chunk and is derived once per device on every visualize_matrices
call. -/
theorem spec2proof_c7 :
    (∀ (c : Collector) (ch : ChunkResult),
      (process_chunk c ch).2.filter_runs
        = c.filter_runs +
          (if ((process_chunk c ch).1
                && currentDeviceComplete (process_chunk c ch).2) = true
           then 1 else 0))
    ∧ (∀ (c : Collector) (ch : ChunkResult),
        (process_chunk c ch).2.phase_runs = c.phase_runs)
    ∧ (∀ (c : Collector) (h : HeaderResult),
        (process_header c h).2.filter_runs = c.filter_runs
        ∧ (process_header c h).2.phase_runs = c.phase_runs)
    ∧ (∀ c : Collector,
        (is_complete_call c).2.1.filter_runs = c.filter_runs
        ∧ (is_complete_call c).2.1.phase_runs = c.phase_runs)
    ∧ (∀ c : Collector, no_none_internal_params c = true →
        (visualize_matrices_masking c).phase_runs = c.phase_runs + c.devices.length
        ∧ (visualize_matrices_masking c).filter_runs = c.filter_runs) := by
  refine ⟨?_, ?_, ?_, ?_, ?_⟩
  · intro c ch
    rcases process_chunk_result c ch with ⟨h1, h2⟩ | ⟨fam, device, hv, hcf, hdev, hdup, heq⟩
    · rw [h1, h2]
      simp
    · rw [heq]
      dsimp only
      rw [(chunkSuccState_runs c fam device ch).1,
          chunkSuccState_currentComplete c fam device ch hcf]
      simp
  · intro c ch
    rcases process_chunk_result c ch with ⟨_, h2⟩ | ⟨fam, device, _, _, _, _, heq⟩
    · rw [h2]
    · rw [heq]
      exact (chunkSuccState_runs c fam device ch).2
  · intro c h
    unfold process_header
    by_cases hv : h.hash_valid = false
    · rw [if_pos hv]; exact ⟨rfl, rfl⟩
    · rw [if_neg hv]
      cases h.data.family
      · exact ⟨rfl, rfl⟩
      · exact ⟨rfl, rfl⟩
  · intro c
    rw [is_complete_state c]
    exact ⟨rfl, rfl⟩
  · intro c _
    unfold visualize_matrices_masking
    have h := phase_masking_foldl (sortStrings (c.devices.map Prod.fst)) c
      (fun fam hf => mem_sortStrings.mp hf)
    refine ⟨?_, h.2.1⟩
    rw [h.1, length_sortStrings, List.length_map]

/-- The C7 counterexample packets: one single-chunk single-session device,
its completing chunk, then a fresh chunk recorded under session id 5. -/
def c7_ops : List PacketOp :=
  [PacketOp.header hdrNRF1, PacketOp.chunk (chk 0 0), PacketOp.chunk (chk 5 0)]

/-- C7 counterexample: the device transitions into complete at the second
packet and stays complete, yet the strength-mask derivation runs twice (once
more on the later out-of-range-session packet), and the phase-mask
derivation runs zero times during completion. -/
theorem spec2proof_c7_counterexample :
    (applyOps c7_ops).filter_runs = 2
    ∧ (applyOps c7_ops).phase_runs = 0
    ∧ ((assocFind "NRF"
        (applyOps [PacketOp.header hdrNRF1, PacketOp.chunk (chk 0 0)]).devices).map
          Device.complete = some true)
    ∧ ((assocFind "NRF" (applyOps c7_ops).devices).map Device.complete = some true) :=
  ⟨by decide, by decide, by decide, by decide⟩

/-- Witness for C7: on the concrete post-scenario collector (whose devices
carry no connections) visualize applies phase masking once per device, and
the completing chunk of the scenario increments the filter counter. -/
theorem spec2proof_c7_witness :
    no_none_internal_params (applyOps c7_ops) = true
    ∧ (visualize_matrices_masking (applyOps c7_ops)).phase_runs
        = (applyOps c7_ops).phase_runs + (applyOps c7_ops).devices.length
    ∧ (process_chunk (applyOps [PacketOp.header hdrNRF1]) (chk 0 0)).2.filter_runs
        = (applyOps [PacketOp.header hdrNRF1]).filter_runs +
          (if ((process_chunk (applyOps [PacketOp.header hdrNRF1]) (chk 0 0)).1
                && currentDeviceComplete
                  (process_chunk (applyOps [PacketOp.header hdrNRF1]) (chk 0 0)).2) = true
           then 1 else 0) :=
  ⟨by decide,
   (spec2proof_c7.2.2.2.2 (applyOps c7_ops) (by decide)).1,
   spec2proof_c7.1 (applyOps [PacketOp.header hdrNRF1]) (chk 0 0)⟩

/-! ## Strength masking rule (C5) -/

/-- The masking rule in the words of the spec: a classified strength of at
least 1 masks the pullup/drive-high phases 1 and 3, of at most -1 the
pulldown/drive-low phases 0 and 2; an undefined strength masks nothing. -/
def strength_mask_rule (s : Option Int) (phase : Option Int) : Bool :=
  match s with
  | none => false
  | some v =>
    (decide (1 ≤ v) && (decide (phase = some 1) || decide (phase = some 3)))
    || (decide (v ≤ -1) && (decide (phase = some 0) || decide (phase = some 2)))

/-- Events of the other endpoint as _filter_weak_connections looks them up
(empty when the endpoint is not a recorded pin). -/
def target_events_of (d : Device) (other_pin : Option Int) : List String :=
  (assocFind other_pin (pin_events_map d.pins)).getD []

/-- Specification of the masked flag of one connection: an internal
connection is masked iff at least one endpoint's classified strength
satisfies the rule for the connection's phase; an external connection is
never strength-masked. -/
def connMaskSpec (d : Device) (pin : Pin) (conn : Conn) : Bool :=
  if conn.conn_type = 0 then
    strength_mask_rule (analyze_pin pin.events) conn.parameter
    || strength_mask_rule (analyze_pin (target_events_of d conn.other_pin)) conn.parameter
  else false

/-- Decidable form of the stored-strength consistency invariant: every
stored strength is the classifier value of the stored events. -/
def strengthInvB (c : Collector) : Bool :=
  c.devices.all (fun fd => fd.2.pins.all (fun p => p.strength == analyze_pin p.events))

theorem strengthInvB_spec {c : Collector} (h : strengthInvB c = true) :
    ∀ fam d, assocFind fam c.devices = some d →
      ∀ p ∈ d.pins, p.strength = analyze_pin p.events := by
  intro fam d hfind p hp
  have hmem := mem_of_assocFind_eq_some hfind
  have h1 := List.all_eq_true.mp h (fam, d) hmem
  have h2 := List.all_eq_true.mp h1 p hp
  simpa using h2

/-- The decision tail of _should_mask_connection computes the rule. -/
theorem mask_tail_eq (s : Option Int) (phase : Option Int) :
    (match s with
     | none => false
     | some v =>
       if v = 0 then false
       else if 1 ≤ v ∧ (phase = some 1 ∨ phase = some 3) then true
       else if v ≤ -1 ∧ (phase = some 0 ∨ phase = some 2) then true
       else false)
    = strength_mask_rule s phase := by
  cases s with
  | none => rfl
  | some v =>
    rw [Bool.eq_iff_iff]
    simp only [strength_mask_rule, Bool.or_eq_true, Bool.and_eq_true, decide_eq_true_eq]
    split_ifs with h0 h1 h2
    · simp only [Bool.false_eq_true, false_iff]
      rintro (⟨hv, _⟩ | ⟨hv, _⟩) <;> omega
    · simp only [true_iff]
      exact Or.inl h1
    · simp only [true_iff]
      exact Or.inr h2
    · simp only [Bool.false_eq_true, false_iff]
      rintro (h | h)
      · exact h1 h
      · exact h2 h

/-- On a collector whose current device stores consistent strengths,
_should_mask_connection computes exactly the spec rule on the classified
strength of the given events. -/
theorem should_mask_eq_rule (c : Collector) (fam : String) (device : Device)
    (hcur : c.current_device_family = some fam)
    (hdev : assocFind fam c.devices = some device)
    (hinv : ∀ p ∈ device.pins, p.strength = analyze_pin p.events)
    (events : List String) (phase : Option Int) :
    should_mask_connection c events phase
      = strength_mask_rule (analyze_pin events) phase := by
  unfold should_mask_connection
  rw [hcur]
  simp only
  rw [hdev]
  simp only [Option.map_some', Option.getD_some]
  cases hfindp : device.pins.find? (fun p => decide (p.events = events)) with
  | none =>
    simp only [hfindp]
    exact mask_tail_eq (analyze_pin events) phase
  | some p =>
    have hpmem := List.mem_of_find?_eq_some hfindp
    have hpev : p.events = events := by simpa using List.find?_some hfindp
    have hps : p.strength = analyze_pin events := by rw [hinv p hpmem, hpev]
    simp only [hfindp]
    cases hstr : p.strength with
    | none =>
      rw [hstr] at hps
      simp only
      rw [← hps]
      exact mask_tail_eq none phase
    | some v =>
      rw [hstr] at hps
      simp only
      rw [← hps]
      exact mask_tail_eq (some v) phase

/-- The masking pass does not change the pin-to-events map. -/
theorem pin_events_map_maskPins (c : Collector) (device : Device) :
    pin_events_map (maskPins c device) = pin_events_map device.pins := by
  unfold maskPins pin_events_map
  rw [List.map_map]
  rfl

theorem chunkSuccState_find_complete (c : Collector) (fam : String) (device : Device)
    (ch : ChunkResult) (h5 : (chunkStoredDevice device ch).complete = true) :
    assocFind fam (chunkSuccState c fam device ch).devices
      = some { chunkStoredDevice device ch with
               pins := maskPins
                 { c with devices := assocSet fam (chunkStoredDevice device ch) c.devices }
                 (chunkStoredDevice device ch) } := by
  unfold chunkSuccState
  dsimp only
  rw [if_pos h5]
  have hfind : assocFind fam (assocSet fam (chunkStoredDevice device ch) c.devices)
      = some (chunkStoredDevice device ch) := assocFind_assocSet_self fam _ c.devices
  rw [filter_weak_devices_of_find hfind, assocSet_assocSet]
  exact assocFind_assocSet_self fam _ c.devices

theorem chunkSuccState_find_incomplete (c : Collector) (fam : String) (device : Device)
    (ch : ChunkResult) (h5 : (chunkStoredDevice device ch).complete = false) :
    assocFind fam (chunkSuccState c fam device ch).devices
      = some (chunkStoredDevice device ch) := by
  unfold chunkSuccState
  dsimp only
  rw [if_neg (by simp [h5])]
  exact assocFind_assocSet_self fam _ c.devices

/-- Claim C5 (confirmed): on a collector whose stored strengths are
consistent with the classifier, a process_chunk call that leaves the current
device complete marks every connection: an internal connection at phase p is
masked iff at least one endpoint's classified strength s satisfies
(1 ≤ s and p ∈ pullup/drive-high phases 1,3) or (s ≤ -1 and p ∈ the
pulldown/drive-low phases 0,2); external connections are never
strength-masked. -/
theorem spec2proof_c5 (c : Collector) (ch : ChunkResult) (fam : String) (d' : Device)
    (hinv : strengthInvB c = true)
    (hret : (process_chunk c ch).1 = true)
    (hcf : currentFamily c = some fam)
    (hfind : assocFind fam (process_chunk c ch).2.devices = some d')
    (hcomp : d'.complete = true) :
    ∀ pin ∈ d'.pins, ∀ conn ∈ pin.connections,
      conn.masked = some (connMaskSpec d' pin conn) := by
  rcases process_chunk_result c ch with ⟨h1, _⟩ | ⟨fam2, device, hv, hcf2, hdev, hdup, heq⟩
  · rw [hret] at h1; simp at h1
  · rw [hcf] at hcf2
    obtain rfl := Option.some.inj hcf2
    rw [heq] at hfind
    dsimp only at hfind
    by_cases h5 : (chunkStoredDevice device ch).complete = true
    · rw [chunkSuccState_find_complete c fam device ch h5] at hfind
      obtain rfl := Option.some.inj hfind
      have hinvd := strengthInvB_spec hinv fam device hdev
      have hstored : ∀ p ∈ (chunkStoredDevice device ch).pins,
          p.strength = analyze_pin p.events := by
        rw [chunkStoredDevice_pins]
        exact strength_consistent_foldl _ _ hinvd
      have hc1cur : ({ c with
          devices := assocSet fam (chunkStoredDevice device ch) c.devices } :
            Collector).current_device_family = some fam := currentFamily_some hcf
      have hmask : ∀ (events : List String) (phase : Option Int),
          should_mask_connection
            { c with devices := assocSet fam (chunkStoredDevice device ch) c.devices }
            events phase
            = strength_mask_rule (analyze_pin events) phase :=
        fun events phase =>
          should_mask_eq_rule _ fam (chunkStoredDevice device ch) hc1cur
            (assocFind_assocSet_self _ _ _) hstored events phase
      intro pin' hpin' conn' hconn'
      have hpin2 : pin' ∈ maskPins
          { c with devices := assocSet fam (chunkStoredDevice device ch) c.devices }
          (chunkStoredDevice device ch) := hpin'
      unfold maskPins at hpin2
      obtain ⟨pin, hpin, rfl⟩ := List.mem_map.mp hpin2
      have hconn2 : conn' ∈ pin.connections.map
          (maskConn { c with devices := assocSet fam (chunkStoredDevice device ch) c.devices }
            (pin_events_map (chunkStoredDevice device ch).pins) pin.events) := hconn'
      obtain ⟨conn, hconn, rfl⟩ := List.mem_map.mp hconn2
      have hpe : pin_events_map
          ({ chunkStoredDevice device ch with
             pins := maskPins
               { c with devices := assocSet fam (chunkStoredDevice device ch) c.devices }
               (chunkStoredDevice device ch) } : Device).pins
          = pin_events_map (chunkStoredDevice device ch).pins := by
        show pin_events_map (maskPins _ _) = _
        exact pin_events_map_maskPins _ _
      unfold maskConn
      by_cases hct : conn.conn_type = 0
      · rw [if_pos hct]
        dsimp only
        unfold connMaskSpec
        rw [if_pos hct]
        unfold target_events_of
        rw [hpe, hmask, hmask]
      · rw [if_neg hct]
        dsimp only
        unfold connMaskSpec
        rw [if_neg hct]
    · have h5f : (chunkStoredDevice device ch).complete = false := by
        revert h5
        cases (chunkStoredDevice device ch).complete <;> simp
      rw [chunkSuccState_find_incomplete c fam device ch h5f] at hfind
      obtain rfl := Option.some.inj hfind
      exact absurd hcomp (by simp [h5f])

/-- Internal connection from pin 1 to pin 2 at the given phase. -/
def c5_conn (ph : Int) : Conn :=
  { other_pin := some 2, parameter := some ph, conn_type := 0,
    masked := none, phase_masked := none }

/-- External connection entry of the witness device. -/
def c5_conn_ext : Conn :=
  { other_pin := some 9, parameter := some 7, conn_type := 1,
    masked := none, phase_masked := none }

/-- Events classifying as strength +2 (table row (1,1,0,1,0,1)). -/
def c5_events2 : List String :=
  ["STEP_1_A_HIGH", "STEP_1_B_HIGH", "STEP_2_A_LOW",
   "STEP_2_B_HIGH", "STEP_3_A_LOW", "STEP_3_B_HIGH"]

/-- Witness pin of strength +2 with internal connections at phases 0..3 and
one external connection. -/
def c5_pin1 : Pin :=
  { pin := some 1, events := c5_events2, events_mask := 0, strength := some 2,
    connections := [c5_conn 0, c5_conn 1, c5_conn 2, c5_conn 3, c5_conn_ext] }

/-- Witness partner pin with no events. -/
def c5_pin2 : Pin :=
  { pin := some 2, events := [], events_mask := 0, strength := none, connections := [] }

/-- Witness device: one chunk of one session still missing. -/
def c5_device : Device :=
  { total_chunks := 1, expected_sessions := 1, pins := [c5_pin1, c5_pin2],
    received_sessions := [], raw_header := [], raw_session_chunks := [],
    complete := false, saved := false, uuid := none, git_commit := none }

/-- Witness collector with the NRF device active. -/
def c5_state : Collector :=
  { devices := [("NRF", c5_device)], current_device_family := some "NRF",
    filter_runs := 0, phase_runs := 0 }

/-- The NRF device after the completing chunk. -/
def c5_result : Device :=
  (assocFind "NRF" (process_chunk c5_state (chk 0 0)).2.devices).getD default

/-- The strength-+2 pin of the completed device. -/
def c5_rpin : Pin := (c5_result.pins.head?).getD default

/-- Witness for C5: after the completing chunk, the +2 pin's pullup (phase 1)
and drive-high (phase 3) internal connections are masked, its pulldown
(phase 0) and drive-low (phase 2) internal connections and its external
connection are unmasked, and the theorem instance at the phase-1 connection
holds. -/
theorem spec2proof_c5_witness :
    strengthInvB c5_state = true
    ∧ (process_chunk c5_state (chk 0 0)).1 = true
    ∧ c5_result.complete = true
    ∧ c5_rpin ∈ c5_result.pins
    ∧ (c5_rpin.connections.map Conn.masked)
        = [some false, some true, some false, some true, some false]
    ∧ (c5_rpin.connections.getD 1 default).masked
        = some (connMaskSpec c5_result c5_rpin (c5_rpin.connections.getD 1 default)) :=
  ⟨by decide, by decide, by decide, by decide, by decide,
   spec2proof_c5 c5_state (chk 0 0) "NRF" c5_result (by decide) (by decide) (by decide)
     (by decide) (by decide) c5_rpin (by decide)
     (c5_rpin.connections.getD 1 default) (by decide)⟩

end TSMon
